import Mathlib

/-!
Verification development for the ECCAIRS E2 gateway.

The definitions below are a shallow embedding of the final version of
src/eccairsPayload.js (the "API Guide v4.26" builder: toAttributeCode,
ensureString, asInt, generateEntityId, validateValueListSelections,
buildSelections, selectionToE2Value, buildE2Payload) and of the
multi-tenant token manager in src/unnamed/part_009 (requestToken,
getE2AccessToken, e2Fetch).

Modelling conventions:
- JavaScript strings are `List Char`; string literals are written via
  `jstr`.  Database column values arrive as `Option (List Char)`
  (with `none` for SQL null), already stringified as the JS code does
  with `String(v)`.
- JavaScript numbers are `Rat`.  `jsNumber` implements the `Number(s)`
  conversion for sign / decimal / fraction / exponent forms; the
  NaN and non-finite outcomes are both mapped to `none`, matching how
  the source only ever uses `Number` guarded by `Number.isFinite`.
  Hexadecimal and binary literal forms of `Number` are not modelled
  (no callsite can receive them from the taxonomy data).
- JavaScript objects used as string-keyed maps are association lists
  `List (List Char × v)`; assignment is `setKey` (replace in place or
  append), matching JS insertion-order semantics.
- Thrown exceptions are `Except (List Char)` with the message as the
  error value.  Database / network effects are passed in as explicit
  arguments: the supabase tables as data, the catalog query and the
  token endpoint as functions, and `Date.now()` as a `now : Int`
  parameter (the source calls `Date.now()` twice in the same tick when
  caching a token; the model uses the single `now`).
-/

set_option autoImplicit false

namespace Eccairs

/-- Shorthand turning a Lean string literal into the JS-string model. -/
def jstr (s : String) : List Char := s.data

/-- JS `String.prototype.trim` (whitespace set approximated by `Char.isWhitespace`). -/
def jsTrim (s : List Char) : List Char :=
  ((s.dropWhile Char.isWhitespace).reverse.dropWhile Char.isWhitespace).reverse

/-- JS truthiness of a nullable string: null and the empty string are falsy. -/
def strTruthy (x : Option (List Char)) : Bool :=
  match x with
  | some (_ :: _) => true
  | _ => false

/-- `ensureString` from eccairsPayload.js: null stays null, otherwise trim and
turn the empty result into null. -/
def ensureString (v : Option (List Char)) : Option (List Char) :=
  match v with
  | none => none
  | some s => let t := jsTrim s; if t = [] then none else some t

/-- `x || d` for nullable strings (empty string is falsy). -/
def jsOrStr (x : Option (List Char)) (d : List Char) : List Char :=
  match x with
  | some s => if s = [] then d else s
  | none => d

/-- `x || null` for nullable strings. -/
def jsOrNullStr (x : Option (List Char)) : Option (List Char) :=
  match x with
  | some s => if s = [] then none else some s
  | none => none

/-- Numeric value of a digit list (most significant first). -/
def digitsVal (ds : List Char) : Nat :=
  ds.foldl (fun a c => a * 10 + (c.toNat - 48)) 0

/-- Optional exponent suffix of a JS number literal: empty, or `e`/`E`,
an optional sign and at least one digit ending the string. -/
def jsExpVal : List Char → Option Int
  | [] => some 0
  | e :: r =>
    if e = 'e' ∨ e = 'E' then
      let p : Int × List Char :=
        match r with
        | '+' :: t => (1, t)
        | '-' :: t => (-1, t)
        | t => (1, t)
      let ed := p.2.takeWhile Char.isDigit
      let r2 := p.2.dropWhile Char.isDigit
      if ed = [] ∨ r2 ≠ [] then none
      else some (p.1 * (digitsVal ed : Int))
    else none

/-- The rational `sgn * mant * 10 ^ (e - fracLen)` of a parsed JS number. -/
def ratOfParts (sgn mant : Int) (fracLen : Nat) (e : Int) : Rat :=
  let d := e - (fracLen : Int)
  if 0 ≤ d then mkRat (sgn * mant * ((10 ^ d.toNat : Nat) : Int)) 1
  else mkRat (sgn * mant) (10 ^ (-d).toNat)

/-- JS `Number(s)` on a non-empty trimmed string: optional sign, then either
`digits`, `digits.digits?` or `.digits`, then an optional exponent.
NaN (parse failure) and non-finite results are both `none`. -/
def jsNumber (s : List Char) : Option Rat :=
  let p : Int × List Char :=
    match s with
    | '+' :: r => (1, r)
    | '-' :: r => (-1, r)
    | r => (1, r)
  let ip := p.2.takeWhile Char.isDigit
  let r1 := p.2.dropWhile Char.isDigit
  match r1 with
  | '.' :: r2 =>
    let fp := r2.takeWhile Char.isDigit
    let r3 := r2.dropWhile Char.isDigit
    if ip = [] ∧ fp = [] then none
    else
      match jsExpVal r3 with
      | none => none
      | some e => some (ratOfParts p.1 (digitsVal (ip ++ fp)) fp.length e)
  | _ =>
    if ip = [] then none
    else
      match jsExpVal r1 with
      | none => none
      | some e => some (ratOfParts p.1 (digitsVal ip) 0 e)

/-- JS `Number(v)` on a nullable DB string: `Number(null) = 0` and
`Number("") = Number(whitespace) = 0`; otherwise parse the trimmed text. -/
def jsNumberOfNullable (x : Option (List Char)) : Option Rat :=
  match x with
  | none => some 0
  | some s => let t := jsTrim s; if t = [] then some 0 else jsNumber t

/-- Print an integral JS number as the source does with `String(n)` (only
integral values reach the stringification sites). -/
def jsNumToStr (q : Rat) : List Char :=
  if q.den = 1 then (toString q.num).data else (toString q).data

/-- `asInt` from eccairsPayload.js: `ensureString`, then `Number` guarded by
`Number.isFinite`. -/
def asInt (v : Option (List Char)) : Option Rat :=
  match ensureString v with
  | none => none
  | some s => jsNumber s

/-- `toAttributeCode` from eccairsPayload.js: null stays null; trim; an empty
result is null; a string of digits is returned as is; `vl` + digits
(case-insensitive) drops the prefix; anything else is null. -/
def toAttributeCode (codeOrVlKey : Option (List Char)) : Option (List Char) :=
  match codeOrVlKey with
  | none => none
  | some raw =>
    let s := jsTrim raw
    if s = [] then none
    else if s.all Char.isDigit then some s
    else
      match s with
      | c1 :: c2 :: rest =>
        if (c1 = 'v' ∨ c1 = 'V') ∧ (c2 = 'l' ∨ c2 = 'L') ∧
            rest ≠ [] ∧ rest.all Char.isDigit then some rest
        else none
      | _ => none

/-- `generateEntityId` from eccairsPayload.js: `"ID" + suffix.padStart(32, "0")`
cut to 34 characters. -/
def generateEntityId (suffix : List Char) : List Char :=
  let p := if 32 ≤ suffix.length then suffix else List.replicate (32 - suffix.length) '0' ++ suffix
  (jstr "ID" ++ p).take 34

/-- The JSON values that flow through the payload builder. -/
inductive JsonVal : Type where
  | jnull : JsonVal
  | jbool (b : Bool) : JsonVal
  | jnum (q : Rat) : JsonVal
  | jstring (s : List Char) : JsonVal
  | jarr (xs : List JsonVal) : JsonVal
  | jobj (fields : List (List Char × JsonVal)) : JsonVal

/-- JS truthiness of a JSON value: null, false, 0 and "" are falsy. -/
def jsonTruthy (v : JsonVal) : Bool :=
  match v with
  | .jnull => false
  | .jbool b => b
  | .jnum q => q ≠ 0
  | .jstring s => s ≠ []
  | .jarr _ => true
  | .jobj _ => true

/-- `x || null` for nullable JSON values. -/
def jsOrNullJson (x : Option JsonVal) : Option JsonVal :=
  match x with
  | some v => if jsonTruthy v then some v else none
  | none => none

/-- Association-list assignment `m[k] = v`: replace in place, else append
(JS object insertion-order semantics). -/
def setKey {v : Type} : List (List Char × v) → List Char → v → List (List Char × v)
  | [], k, x => [(k, x)]
  | (k', x') :: rest, k, x =>
    if k' = k then (k', x) :: rest else (k', x') :: setKey rest k x

/-- Association-list lookup (first binding wins). -/
def lookupA {v : Type} : List (List Char × v) → List Char → Option v
  | [], _ => none
  | (k', x) :: rest, k => if k' = k then some x else lookupA rest k

/-- The keys of an association list, in order. -/
def keysA {v : Type} (m : List (List Char × v)) : List (List Char) :=
  m.map Prod.fst

/-- JS `Map.prototype.delete` on the association-list model. -/
def eraseKey {v : Type} (m : List (List Char × v)) (k : List Char) : List (List Char × v) :=
  m.filter (fun p => p.1 ≠ k)

/-! ## Taxonomy catalog and value-list validation -/

/-- One row of the read-only `eccairs.value_list_items` table. -/
structure CatalogRow where
  value_list_key : List Char
  value_id : List Char

/-- One `(code, valueId)` pair submitted to validation. -/
structure VPair where
  code : List Char
  valueId : List Char

/-- `` `VL${code}` ``. -/
def vlKeyOf (code : List Char) : List Char := jstr "VL" ++ code

/-- `` `${vlKey}:${valueId}` ``, the membership key of the valid set. -/
def taxKey (vlKey valueId : List Char) : List Char := vlKey ++ ':' :: valueId

/-- One step of the `byCode` grouping in `validateValueListSelections`:
a JS `Map` of `Set`s keyed by code, in insertion order. -/
def addPair : List (List Char × List (List Char)) → List Char → List Char →
    List (List Char × List (List Char))
  | [], code, v => [(code, [v])]
  | (c, vs) :: rest, code, v =>
    if c = code then (c, if v ∈ vs then vs else vs ++ [v]) :: rest
    else (c, vs) :: addPair rest code v

/-- The `byCode` grouping loop of `validateValueListSelections`; a pair with a
falsy code is skipped. -/
def groupPairs (pairs : List VPair) : List (List Char × List (List Char)) :=
  pairs.foldl (fun acc p => if p.code = [] then acc else addPair acc p.code p.valueId) []

/-- The per-VL-key query loop of `validateValueListSelections`: one catalog
query per distinct code; a query error is thrown, otherwise each returned
row adds its `` `${value_list_key}:${value_id}` `` key to the valid set. -/
def runVlQueries (q : List Char → List (List Char) → Except (List Char) (List CatalogRow)) :
    List (List Char × List (List Char)) → List (List Char) →
    Except (List Char) (List (List Char))
  | [], valid => .ok valid
  | (code, vs) :: rest, valid =>
    match q (vlKeyOf code) vs with
    | .error e => .error e
    | .ok rows => runVlQueries q rest (valid ++ rows.map (fun r => taxKey r.value_list_key r.value_id))

/-- `validateValueListSelections` from eccairsPayload.js. -/
def validateValueListSelections
    (q : List Char → List (List Char) → Except (List Char) (List CatalogRow))
    (selections : List VPair) : Except (List Char) (List (List Char)) :=
  runVlQueries q (groupPairs selections) []

/-- The healthy catalog query: supabase
`.eq("value_list_key", vlKey).in("value_id", values)` over the table rows. -/
def tableVlQuery (table : List CatalogRow) (k : List Char) (vals : List (List Char)) :
    Except (List Char) (List CatalogRow) :=
  .ok (table.filter (fun r => decide (r.value_list_key = k ∧ r.value_id ∈ vals)))

/-! ## Loaders and selections -/

/-- One row of `incident_eccairs_attributes` as selected by
`loadIncidentAttributesGeneric`. -/
structure GenericRow where
  attribute_code : Option (List Char)
  value_id : Option (List Char)
  taxonomy_code : Option (List Char)
  format : Option (List Char)
  payload_json : Option JsonVal
  text_value : Option (List Char)
  entity_path : Option (List Char)

/-- The legacy `incident_eccairs_mappings` wide row (the columns the final
builder reads). -/
structure WideRow where
  occurrence_class : Option (List Char)
  phase_of_flight : Option (List Char)
  aircraft_category : Option (List Char)

/-- The `eccairs_integrations` settings row (the column the final builder
reads). -/
structure IntegrationRow where
  responsible_entity_id : Option Int

/-- The database as seen by the builder: each loader either throws or
returns its rows (`genericAttrs = .ok none` models the 42P01
table-missing fallback), plus the catalog query. -/
structure Db where
  genericAttrs : Except (List Char) (Option (List GenericRow))
  wideRow : Except (List Char) (Option WideRow)
  integrationRow : Except (List Char) (Option IntegrationRow)
  vlQuery : List Char → List (List Char) → Except (List Char) (List CatalogRow)

/-- One attribute selection as produced by `buildSelections`. -/
structure Selection where
  code : List Char
  taxonomy_code : List Char
  format : List Char
  valueId : Option (List Char)
  text : Option (List Char)
  raw : Option JsonVal
  entity_path : Option (List Char)

/-- The per-row body of the generic-table loop in `buildSelections`:
a row whose code does not canonicalize is skipped. -/
def mkGenericSelection (r : GenericRow) : Option Selection :=
  match toAttributeCode r.attribute_code with
  | none => none
  | some code =>
    some { code := code
           taxonomy_code := jsOrStr (ensureString r.taxonomy_code) (jstr "24")
           format := jsOrStr (ensureString r.format) (jstr "value_list_int_array")
           valueId := ensureString r.value_id
           text := ensureString r.text_value
           raw := jsOrNullJson r.payload_json
           entity_path := jsOrNullStr r.entity_path }

/-- The enumerated valid occurrence-class values of the legacy fallback. -/
def validOccurrenceClasses : List Rat := [100, 200, 300, 301, 302, 400, 500, 501, 502]

/-- `validOccurrenceClasses.includes(Number(wide.occurrence_class)) ? ... : 300`. -/
def occurrenceClassOf (w : WideRow) : Rat :=
  match jsNumberOfNullable w.occurrence_class with
  | some q => if q ∈ validOccurrenceClasses then q else 300
  | none => 300

/-- `integration?.responsible_entity_id || 133`. -/
def responsibleEntityOf (integ : Option IntegrationRow) : Int :=
  match integ with
  | some i =>
    match i.responsible_entity_id with
    | some n => if n = 0 then 133 else n
    | none => 133
  | none => 133

/-- The legacy wide-row fallback branch of `buildSelections`. -/
def buildSelectionsLegacy (db : Db) : Except (List Char) (List Char × List Selection) :=
  match db.wideRow with
  | .error e => .error e
  | .ok none => .ok (jstr "none", [])
  | .ok (some w) =>
    match db.integrationRow with
    | .error e => .error e
    | .ok integ =>
      let occ := occurrenceClassOf w
      let resp := responsibleEntityOf integ
      .ok (jstr "incident_eccairs_mappings",
        [{ code := jstr "431", taxonomy_code := jstr "24",
           format := jstr "value_list_int_array",
           valueId := some (jsNumToStr occ), text := none, raw := none, entity_path := none },
         { code := jstr "453", taxonomy_code := jstr "24",
           format := jstr "value_list_int_array",
           valueId := some (toString resp).data, text := none, raw := none, entity_path := none }]
        ++ (if strTruthy w.phase_of_flight then
              [{ code := jstr "1072", taxonomy_code := jstr "24",
                 format := jstr "content_object_array",
                 valueId := some (w.phase_of_flight.getD []), text := none, raw := none,
                 entity_path := none }]
            else [])
        ++ (if strTruthy w.aircraft_category then
              [{ code := jstr "32", taxonomy_code := jstr "24",
                 format := jstr "value_list_int_array",
                 valueId := some (w.aircraft_category.getD []), text := none, raw := none,
                 entity_path := some (jstr "4") }]
            else []))

/-- `buildSelections` from eccairsPayload.js: use the generic table when it
has rows, otherwise fall back to the legacy wide row. -/
def buildSelections (db : Db) : Except (List Char) (List Char × List Selection) :=
  match db.genericAttrs with
  | .error e => .error e
  | .ok (some rows) =>
    if 0 < rows.length then
      .ok (jstr "incident_eccairs_attributes", rows.filterMap mkGenericSelection)
    else buildSelectionsLegacy db
  | .ok none => buildSelectionsLegacy db

/-! ## Format converter -/

/-- `selectionToE2Value` from eccairsPayload.js. -/
def selectionToE2Value (sel : Selection) : Option JsonVal :=
  if sel.format = jstr "raw_json" then sel.raw
  else if sel.format = jstr "content_object_array" then
    match asInt sel.valueId with
    | none => none
    | some n => some (.jarr [.jobj [(jstr "content", .jarr [.jnum n])]])
  else if sel.format = jstr "text_content_array" then
    if strTruthy sel.text then some (.jarr [.jobj [(jstr "text", .jstring (sel.text.getD []))]])
    else none
  else if sel.format = jstr "value_list_int_array" then
    match asInt sel.valueId with
    | none => none
    | some n => some (.jarr [.jnum n])
  else if sel.format = jstr "local_date" ∨ sel.format = jstr "date_array" then
    if strTruthy sel.text then some (.jarr [.jstring (sel.text.getD [])]) else none
  else if sel.format = jstr "string_array" then
    if strTruthy sel.text then some (.jarr [.jstring (sel.text.getD [])]) else none
  else if sel.format = jstr "time_array" then
    if strTruthy sel.text then some (.jarr [.jstring (sel.text.getD [])]) else none
  else
    match sel.raw with
    | some r =>
      if jsonTruthy r then some r
      else
        match asInt sel.valueId with
        | none => none
        | some n => some (.jarr [.jnum n])
    | none =>
      match asInt sel.valueId with
      | none => none
      | some n => some (.jarr [.jnum n])

/-! ## Payload assembly -/

/-- One rejection record of the diagnostics. -/
structure RejectedAttr where
  attribute_code : List Char
  value_id : Option (List Char)
  reason : List Char

/-- `` `No value for format=${sel.format}` ``. -/
def noValueReason (fmt : List Char) : List Char := jstr "No value for format=" ++ fmt

/-- The catalog-absence rejection reason. -/
def notFoundReason : List Char := jstr "Not found in eccairs.value_list_items"

/-- The mutable state of the conversion loop in `buildE2Payload`. -/
structure PState where
  top : List (List Char × JsonVal)
  ents : List (List Char × List (List Char × JsonVal))
  rejected : List RejectedAttr

/-- The conversion-and-placement tail of the loop body: convert, reject a null
conversion, otherwise place under the entity path or at top level. -/
def convertAndPlace (sel : Selection) (st : PState) : PState :=
  match selectionToE2Value sel with
  | none =>
    { st with rejected := st.rejected ++ [⟨sel.code, none, noValueReason sel.format⟩] }
  | some v =>
    if strTruthy sel.entity_path then
      let p := sel.entity_path.getD []
      { st with ents := setKey st.ents p (setKey ((lookupA st.ents p).getD []) sel.code v) }
    else { st with top := setKey st.top sel.code v }

/-- One iteration of the conversion loop: the value-list gate (skip a falsy
valueId, reject a catalog miss), then convert and place. -/
def processSel (validSet : List (List Char)) (st : PState) (sel : Selection) : PState :=
  if sel.format = jstr "value_list_int_array" then
    if strTruthy sel.valueId then
      if taxKey (vlKeyOf sel.code) (sel.valueId.getD []) ∈ validSet then convertAndPlace sel st
      else
        { st with rejected := st.rejected ++ [⟨sel.code, sel.valueId, notFoundReason⟩] }
    else st
  else convertAndPlace sel st

/-- The whole conversion loop. -/
def processSelections (validSet : List (List Char)) (sels : List Selection) (st : PState) : PState :=
  sels.foldl (processSel validSet) st

/-- One synthesized entity object. -/
structure EntityObj where
  ID : List Char
  ATTRIBUTES : List (List Char × JsonVal)

/-- The taxonomy-24 block of the outbound document. -/
structure TaxBlock24 where
  ID : Option (List Char)
  ATTRIBUTES : List (List Char × JsonVal)
  ENTITIES : Option (List (List Char × List EntityObj))

/-- The outbound document: the create shape also carries the constant
`type: "REPORT", status: "DRAFT"` pair; the edit shape carries the external
identifier and the version indicator at top level. -/
inductive E2Payload : Type where
  | create (tax : TaxBlock24) : E2Payload
  | edit (e2Id : List Char) (versionType : List Char) (tax : TaxBlock24) : E2Payload

/-- The taxonomy block of either payload shape. -/
def E2Payload.tax : E2Payload → TaxBlock24
  | .create t => t
  | .edit _ _ t => t

/-- The `ENTITIES` assembly of `buildE2Payload`: present only when some
entity accumulator exists; each non-empty accumulator becomes a
single-element list holding one entity object. -/
def buildEntities (ents : List (List Char × List (List Char × JsonVal))) :
    Option (List (List Char × List EntityObj)) :=
  if 0 < ents.length then
    some (ents.foldl
      (fun acc pr =>
        if 0 < pr.2.length then acc ++ [(pr.1, [⟨generateEntityId pr.1, pr.2⟩])] else acc)
      [])
  else none

/-- The fixed document identifier used in create mode. -/
def fixedDocId : List Char := jstr "ID00000000000000000000000000000001"

/-- The message of the edit-mode precondition exception. -/
def e2IdRequiredMsg : List Char := jstr "e2_id is required for edit mode"

/-- The export bookkeeping row passed to `buildE2Payload`. -/
structure ExportRow where
  e2_id : Option (List Char)
  e2_version : Option (List Char)

/-- `mode || "create"`. -/
def effectiveModeOf (mode : Option (List Char)) : List Char :=
  jsOrStr mode (jstr "create")

/-- The taxonomy-24 filter of `buildE2Payload`. -/
def filteredOf (sels : List Selection) : List Selection :=
  sels.filter (fun s => decide (jsOrStr (ensureString (some s.taxonomy_code)) (jstr "24") = jstr "24"))

/-- The value-list candidates of `buildE2Payload`: value-list format with a
truthy valueId. -/
def candidatesOf (sels : List Selection) : List VPair :=
  (filteredOf sels).filterMap
    (fun s =>
      if s.format = jstr "value_list_int_array" ∧ strTruthy s.valueId then
        some ⟨s.code, s.valueId.getD []⟩
      else none)

/-- The compilation result: the payload plus the meta diagnostics the source
attaches. -/
structure BuildResult where
  payload : E2Payload
  mode : List Char
  source : List Char
  rejected : List RejectedAttr
  topLevelAttributes : List (List Char × JsonVal)
  entityAttributes : List (List Char × List (List Char × JsonVal))
  usedCount : Nat
  selectionsCount : Nat

/-- `buildE2Payload` from eccairsPayload.js (final version): load, filter to
taxonomy 24, validate value-list candidates, convert and place, then build
the mode-specific payload. -/
def buildE2Payload (db : Db) (exportRow : Option ExportRow)
    (mode : Option (List Char)) (versionType : Option (List Char)) :
    Except (List Char) BuildResult :=
  match buildSelections db with
  | .error e => .error e
  | .ok (source, selections) =>
    match validateValueListSelections db.vlQuery (candidatesOf selections) with
    | .error e => .error e
    | .ok validSet =>
      let st := processSelections validSet (filteredOf selections) ⟨[], [], []⟩
      let em := effectiveModeOf mode
      let used := st.top.length + (st.ents.map (fun pr => pr.2.length)).sum
      if em = jstr "edit" ∨ em = jstr "update" then
        match jsOrNullStr (exportRow.bind (fun r => r.e2_id)) with
        | none => .error e2IdRequiredMsg
        | some e2id =>
          .ok { payload := .edit e2id (jsOrStr versionType (jstr "DRAFT"))
                  ⟨none, st.top, buildEntities st.ents⟩
                mode := em
                source := source
                rejected := st.rejected
                topLevelAttributes := st.top
                entityAttributes := st.ents
                usedCount := used
                selectionsCount := selections.length }
      else
        .ok { payload := .create ⟨some fixedDocId, st.top, buildEntities st.ents⟩
              mode := em
              source := source
              rejected := st.rejected
              topLevelAttributes := st.top
              entityAttributes := st.ents
              usedCount := used
              selectionsCount := selections.length }

/-! ## Access-token manager (src/unnamed/part_009) -/

/-- The body of a successful token response, as `JSON.parse` delivers it. -/
structure TokenData where
  access_token : List Char
  expires_in : Int
deriving DecidableEq

/-- A raw HTTP response of the token endpoint.  `json` models the outcome of
`JSON.parse(text)` on the body (`none` when parsing throws); the HTML
detection and the status check below operate on `text` and `status` as the
source does. -/
structure TokenResponse where
  status : Nat
  text : List Char
  json : Option TokenData

/-- One cached token entry. -/
structure CachedToken where
  token : List Char
  expiresAt : Int
deriving DecidableEq

/-- The per-tenant token cache. -/
abbrev TokenCache := List (List Char × CachedToken)

/-- JS `text.includes(needle)`: `needle` occurs contiguously in `text`. -/
def containsSeq (needle : List Char) : List Char → Bool
  | [] => needle.isPrefixOf []
  | c :: rest => needle.isPrefixOf (c :: rest) || containsSeq needle rest

/-- The HTML-body detection of `requestToken`. -/
def looksLikeHtml (text : List Char) : Bool :=
  (jstr "<!DOCTYPE").isPrefixOf text || (jstr "<html").isPrefixOf text
    || containsSeq (jstr "<html") text

/-- `requestToken` from part_009, given the response the endpoint produced
for `(tokenPath, mode)`: reject an HTML body, reject a non-ok status,
reject an unparsable body, otherwise return the parsed data. -/
def requestToken (tokenPath modeName : List Char) (r : TokenResponse) :
    Except (List Char) TokenData :=
  if looksLikeHtml r.text then
    .error (jstr "Token endpoint " ++ tokenPath ++ jstr " returned HTML (status "
      ++ (toString r.status).data ++ jstr "). Check URL and IP whitelist.")
  else if ¬ (200 ≤ r.status ∧ r.status < 300) then
    .error (jstr "E2 token " ++ tokenPath ++ jstr " (" ++ modeName ++ jstr ") "
      ++ (toString r.status).data ++ jstr ": " ++ r.text)
  else
    match r.json with
    | none => .error (jstr "Unexpected token in JSON")
    | some d => .ok d

/-- The ordered attempt list of part_009. -/
def tokenAttempts : List (List Char × List Char) :=
  [(jstr "/idp/oauth2/token", jstr "body"),
   (jstr "/idp/oauth2/token", jstr "basic")]

/-- The 60-second expiry skew. -/
def skewMs : Int := 60000

/-- The attempt loop of `getE2AccessToken`: stop at the first success (caching
the token with expiry `now + expires_in * 1000 - skew`); when every attempt
fails, throw the last error and leave the cache untouched. -/
def runTokenAttempts (env : List Char × List Char → TokenResponse) (now : Int)
    (cacheKey : List Char) (cache : TokenCache) :
    List (List Char × List Char) → Option (List Char) →
    Except (List Char) (List Char) × TokenCache
  | [], lastErr =>
    (.error (lastErr.getD (jstr "E2 token request failed - all attempts exhausted")), cache)
  | a :: rest, _lastErr =>
    match requestToken a.1 a.2 (env a) with
    | .ok d =>
      (.ok d.access_token,
        setKey cache cacheKey ⟨d.access_token, now + d.expires_in * 1000 - skewMs⟩)
    | .error e => runTokenAttempts env now cacheKey cache rest (some e)

/-- `getE2AccessToken` from part_009.  `credsOk` models the configured-
credentials guard; `env` gives the token-endpoint response per attempt;
the cache is threaded explicitly and returned alongside the result. -/
def getE2AccessToken (credsOk : Bool) (env : List Char × List Char → TokenResponse)
    (now : Int) (cacheKey : List Char) (cache : TokenCache) :
    Except (List Char) (List Char) × TokenCache :=
  if ¬ credsOk then
    (.error (jstr "E2 credentials not configured (neither per-company nor global)"), cache)
  else
    match lookupA cache cacheKey with
    | some c =>
      if now < c.expiresAt then (.ok c.token, cache)
      else runTokenAttempts env now cacheKey cache tokenAttempts none
    | none => runTokenAttempts env now cacheKey cache tokenAttempts none

/-- A registry HTTP response as `e2Fetch` sees it. -/
structure HttpResp where
  status : Nat
  body : List Char
deriving DecidableEq

/-- `e2Fetch` from part_009: acquire a token, call the registry; on a 401
delete the cached entry for the tenant key, acquire a fresh token and retry
exactly once, returning whatever the retry produced.  `fetch1`/`fetch2` are
the registry responses to the first and second call as a function of the
bearer token used; `env1`/`env2` are the token-endpoint behaviors at the two
acquisition times. -/
def e2Fetch (credsOk : Bool) (env1 env2 : List Char × List Char → TokenResponse)
    (fetch1 fetch2 : List Char → HttpResp) (now : Int) (cacheKey : List Char)
    (cache : TokenCache) : Except (List Char) HttpResp × TokenCache :=
  match getE2AccessToken credsOk env1 now cacheKey cache with
  | (.error e, c) => (.error e, c)
  | (.ok token, c1) =>
    let res := fetch1 token
    if res.status = 401 then
      let c2 := eraseKey c1 cacheKey
      match getE2AccessToken credsOk env2 now cacheKey c2 with
      | (.error e, c3) => (.error e, c3)
      | (.ok token2, c3) => (.ok (fetch2 token2), c3)
    else (.ok res, c1)

/-! ## Derived predicates used by the statements -/

/-- The value-list gate of the conversion loop: a non-value-list selection
passes outright; a value-list selection passes when its valueId is truthy
and its key is in the valid set. -/
def vlGateOk (validSet : List (List Char)) (sel : Selection) : Bool :=
  if sel.format = jstr "value_list_int_array" then
    strTruthy sel.valueId && decide (taxKey (vlKeyOf sel.code) (sel.valueId.getD []) ∈ validSet)
  else true

/-- A selection that survives the gate, converts to a value and carries no
truthy entity path: exactly the ones that write a top-level attribute. -/
def placesTop (validSet : List (List Char)) (sel : Selection) : Prop :=
  vlGateOk validSet sel = true ∧ (∃ v, selectionToE2Value sel = some v) ∧
    strTruthy sel.entity_path = false

/-- A selection that survives the gate, converts to a value and carries the
truthy entity path `p`: exactly the ones that write into the entity
accumulator of `p`. -/
def placesEnt (validSet : List (List Char)) (sel : Selection) (p : List Char) : Prop :=
  vlGateOk validSet sel = true ∧ (∃ v, selectionToE2Value sel = some v) ∧
    sel.entity_path = some p ∧ strTruthy sel.entity_path = true

/-- The integer-array fallback tail of `selectionToE2Value`. -/
def intArrayFallback (sel : Selection) : Option JsonVal :=
  match asInt sel.valueId with
  | none => none
  | some n => some (.jarr [.jnum n])

/-- The format names `selectionToE2Value` dispatches on. -/
def recognizedFormats : List (List Char) :=
  [jstr "raw_json", jstr "content_object_array", jstr "text_content_array",
   jstr "value_list_int_array", jstr "local_date", jstr "date_array",
   jstr "string_array", jstr "time_array"]

/-! ## Concrete instances used by scenario and counterexample theorems -/

/-- A generic row carrying only a code, a value and optionally a format or an
entity path (the other columns null). -/
def simpleRow (code value : String) (fmt : Option String) (path : Option String) : GenericRow :=
  { attribute_code := some (jstr code)
    value_id := some (jstr value)
    taxonomy_code := none
    format := fmt.map jstr
    payload_json := none
    text_value := none
    entity_path := path.map jstr }

/-- The spec scenario input for the content-wrapped format: one generic row
for attribute 1072 with format content_object_array and value 10. -/
def db1072 : Db :=
  { genericAttrs := .ok (some [simpleRow "1072" "10" (some "content_object_array") none])
    wideRow := .ok none
    integrationRow := .ok none
    vlQuery := tableVlQuery [] }

/-- The spec scenario input for entity nesting: one generic row for attribute
32 with entity path 4 and value 5; the catalog holds VL32:5. -/
def db32 : Db :=
  { genericAttrs := .ok (some [simpleRow "32" "5" none (some "4")])
    wideRow := .ok none
    integrationRow := .ok none
    vlQuery := tableVlQuery [⟨jstr "VL32", jstr "5"⟩] }

/-- A legacy wide row with an out-of-range occurrence class 999. -/
def w999 : WideRow :=
  { occurrence_class := some (jstr "999")
    phase_of_flight := none
    aircraft_category := none }

/-- Legacy-path input with an out-of-range occurrence class 999; the catalog
holds both VL431:100 and VL431:300 (and VL453:133 for the responsible
entity default). -/
def db999 : Db :=
  { genericAttrs := .ok none
    wideRow := .ok (some w999)
    integrationRow := .ok none
    vlQuery := tableVlQuery
      [⟨jstr "VL431", jstr "100"⟩, ⟨jstr "VL431", jstr "300"⟩, ⟨jstr "VL453", jstr "133"⟩] }

/-- Two generic rows with the same attribute code 431: an invalid value 999
and a valid value 300; the catalog holds only VL431:300. -/
def dbDup431 : Db :=
  { genericAttrs := .ok (some [simpleRow "431" "999" none none, simpleRow "431" "300" none none])
    wideRow := .ok none
    integrationRow := .ok none
    vlQuery := tableVlQuery [⟨jstr "VL431", jstr "300"⟩] }

/-- One generic row whose attribute code does not canonicalize. -/
def dbBadCode : Db :=
  { genericAttrs := .ok (some [simpleRow "x431" "300" none none])
    wideRow := .ok none
    integrationRow := .ok none
    vlQuery := tableVlQuery [] }

/-- A database with no attribute data at all. -/
def dbEmpty : Db :=
  { genericAttrs := .ok none
    wideRow := .ok none
    integrationRow := .ok none
    vlQuery := tableVlQuery [] }

/-- A database whose catalog query always fails. -/
def dbCatalogDown : Db :=
  { genericAttrs := .ok (some [simpleRow "431" "300" none none])
    wideRow := .ok none
    integrationRow := .ok none
    vlQuery := fun _ _ => .error (jstr "boom") }

/-! ## Association-list lemmas -/

theorem keysA_nil {v : Type} : keysA ([] : List (List Char × v)) = [] := rfl

theorem keysA_cons {v : Type} (a : List Char) (b : v) (m : List (List Char × v)) :
    keysA ((a, b) :: m) = a :: keysA m := rfl

theorem setKey_nil {v : Type} (k : List Char) (x : v) :
    setKey ([] : List (List Char × v)) k x = [(k, x)] := rfl

theorem setKey_cons {v : Type} (a : List Char) (b : v) (m : List (List Char × v))
    (k : List Char) (x : v) :
    setKey ((a, b) :: m) k x = if a = k then (a, x) :: m else (a, b) :: setKey m k x := rfl

theorem lookupA_nil {v : Type} (k : List Char) : lookupA ([] : List (List Char × v)) k = none := rfl

theorem lookupA_cons {v : Type} (a : List Char) (b : v) (m : List (List Char × v)) (k : List Char) :
    lookupA ((a, b) :: m) k = if a = k then some b else lookupA m k := rfl

theorem mem_keysA_setKey {v : Type} (m : List (List Char × v)) (k a : List Char) (x : v) :
    a ∈ keysA (setKey m k x) ↔ a ∈ keysA m ∨ a = k := by
  induction m with
  | nil =>
    rw [setKey_nil, keysA_cons, keysA_nil]
    simp
  | cons hd tl ih =>
    obtain ⟨c, y⟩ := hd
    rw [setKey_cons]
    by_cases h : c = k
    · rw [if_pos h, keysA_cons, keysA_cons]
      subst h
      simp only [List.mem_cons]
      tauto
    · rw [if_neg h, keysA_cons, keysA_cons]
      simp only [List.mem_cons, ih]
      tauto

theorem lookupA_setKey_self {v : Type} (m : List (List Char × v)) (k : List Char) (x : v) :
    lookupA (setKey m k x) k = some x := by
  induction m with
  | nil => rw [setKey_nil, lookupA_cons, if_pos rfl]
  | cons hd tl ih =>
    obtain ⟨c, y⟩ := hd
    rw [setKey_cons]
    by_cases h : c = k
    · rw [if_pos h, lookupA_cons, if_pos h]
    · rw [if_neg h, lookupA_cons, if_neg h, ih]

theorem lookupA_setKey_ne {v : Type} (m : List (List Char × v)) (k k' : List Char) (x : v)
    (h : k ≠ k') : lookupA (setKey m k x) k' = lookupA m k' := by
  induction m with
  | nil => rw [setKey_nil, lookupA_cons, if_neg h, lookupA_nil]
  | cons hd tl ih =>
    obtain ⟨c, y⟩ := hd
    rw [setKey_cons]
    by_cases hc : c = k
    · rw [if_pos hc, lookupA_cons, lookupA_cons, hc, if_neg h, if_neg h]
    · rw [if_neg hc, lookupA_cons, lookupA_cons, ih]

theorem nodup_keysA_setKey {v : Type} (m : List (List Char × v)) (k : List Char) (x : v)
    (h : (keysA m).Nodup) : (keysA (setKey m k x)).Nodup := by
  induction m with
  | nil =>
    rw [setKey_nil, keysA_cons, keysA_nil]
    exact List.nodup_singleton k
  | cons hd tl ih =>
    obtain ⟨c, y⟩ := hd
    rw [keysA_cons, List.nodup_cons] at h
    rw [setKey_cons]
    by_cases hc : c = k
    · rw [if_pos hc, keysA_cons, List.nodup_cons]
      exact h
    · rw [if_neg hc, keysA_cons, List.nodup_cons]
      refine ⟨fun hcmem => ?_, ih h.2⟩
      rcases (mem_keysA_setKey tl k c x).1 hcmem with h3 | h3
      · exact h.1 h3
      · exact hc h3

theorem lookupA_of_mem_nodup {v : Type} (m : List (List Char × v)) (p : List Char) (x : v)
    (hmem : (p, x) ∈ m) (hnd : (keysA m).Nodup) : lookupA m p = some x := by
  induction m with
  | nil => cases hmem
  | cons hd tl ih =>
    obtain ⟨c, y⟩ := hd
    rw [keysA_cons, List.nodup_cons] at hnd
    rw [lookupA_cons]
    rcases List.mem_cons.1 hmem with heq | hmem2
    · cases heq
      rw [if_pos rfl]
    · have hne : c ≠ p := by
        intro he
        subst he
        exact hnd.1 (List.mem_map_of_mem Prod.fst hmem2)
      rw [if_neg hne]
      exact ih hmem2 hnd.2

theorem mem_of_lookupA {v : Type} (m : List (List Char × v)) (p : List Char) (x : v)
    (h : lookupA m p = some x) : (p, x) ∈ m := by
  induction m with
  | nil => cases h
  | cons hd tl ih =>
    obtain ⟨c, y⟩ := hd
    rw [lookupA_cons] at h
    by_cases hc : c = p
    · rw [if_pos hc] at h
      cases h
      subst hc
      exact List.mem_cons_self _ _
    · rw [if_neg hc] at h
      exact List.mem_cons_of_mem _ (ih h)

/-! ## Conversion-loop step lemmas -/

theorem processSelections_nil (vs : List (List Char)) (st : PState) :
    processSelections vs [] st = st := rfl

theorem processSelections_cons (vs : List (List Char)) (sel : Selection) (l : List Selection)
    (st : PState) :
    processSelections vs (sel :: l) st = processSelections vs l (processSel vs st sel) := rfl

theorem processSel_vl_skip (vs : List (List Char)) (st : PState) (sel : Selection)
    (hf : sel.format = jstr "value_list_int_array") (hv : strTruthy sel.valueId = false) :
    processSel vs st sel = st := by
  simp [processSel, hf, hv]

theorem processSel_vl_reject (vs : List (List Char)) (st : PState) (sel : Selection)
    (hf : sel.format = jstr "value_list_int_array") (hv : strTruthy sel.valueId = true)
    (hk : taxKey (vlKeyOf sel.code) (sel.valueId.getD []) ∉ vs) :
    processSel vs st sel =
      { st with rejected := st.rejected ++ [⟨sel.code, sel.valueId, notFoundReason⟩] } := by
  simp [processSel, hf, hv, hk]

theorem processSel_pass (vs : List (List Char)) (st : PState) (sel : Selection)
    (h : vlGateOk vs sel = true) :
    processSel vs st sel = convertAndPlace sel st := by
  unfold vlGateOk at h
  unfold processSel
  by_cases hf : sel.format = jstr "value_list_int_array"
  · rw [if_pos hf] at h
    rw [if_pos hf]
    simp only [Bool.and_eq_true] at h
    rw [h.1, if_pos (of_decide_eq_true h.2)]
    simp
  · rw [if_neg hf]

theorem processSel_gate_closed (vs : List (List Char)) (st : PState) (sel : Selection)
    (h : vlGateOk vs sel = false) :
    (processSel vs st sel).top = st.top ∧ (processSel vs st sel).ents = st.ents := by
  unfold vlGateOk at h
  unfold processSel
  by_cases hf : sel.format = jstr "value_list_int_array"
  · rw [if_pos hf] at h
    rw [if_pos hf]
    by_cases hv : strTruthy sel.valueId
    · rw [hv] at h
      simp only [Bool.true_and] at h
      rw [hv, if_neg (of_decide_eq_false h)]
      exact ⟨rfl, rfl⟩
    · rw [Bool.not_eq_true] at hv
      rw [hv]
      exact ⟨rfl, rfl⟩
  · rw [if_neg hf] at h
    cases h

theorem convertAndPlace_none (sel : Selection) (st : PState)
    (h : selectionToE2Value sel = none) :
    convertAndPlace sel st =
      { st with rejected := st.rejected ++ [⟨sel.code, none, noValueReason sel.format⟩] } := by
  simp [convertAndPlace, h]

theorem convertAndPlace_top (sel : Selection) (st : PState) (v : JsonVal)
    (h : selectionToE2Value sel = some v) (he : strTruthy sel.entity_path = false) :
    convertAndPlace sel st = { st with top := setKey st.top sel.code v } := by
  simp [convertAndPlace, h, he]

theorem convertAndPlace_ent (sel : Selection) (st : PState) (v : JsonVal)
    (h : selectionToE2Value sel = some v) (he : strTruthy sel.entity_path = true) :
    convertAndPlace sel st =
      ⟨st.top,
        setKey st.ents (sel.entity_path.getD [])
          (setKey ((lookupA st.ents (sel.entity_path.getD [])).getD []) sel.code v),
        st.rejected⟩ := by
  simp [convertAndPlace, h, he]

theorem processSel_rejected_extend (vs : List (List Char)) (st : PState) (sel : Selection) :
    ∃ d, (processSel vs st sel).rejected = st.rejected ++ d := by
  by_cases hg : vlGateOk vs sel = true
  · rw [processSel_pass vs st sel hg]
    cases h : selectionToE2Value sel with
    | none => rw [convertAndPlace_none sel st h]; exact ⟨_, rfl⟩
    | some v =>
      by_cases he : strTruthy sel.entity_path
      · rw [convertAndPlace_ent sel st v h he]
        exact ⟨[], (List.append_nil _).symm⟩
      · rw [convertAndPlace_top sel st v h (Bool.not_eq_true _ ▸ he)]
        exact ⟨[], (List.append_nil _).symm⟩
  · rw [Bool.not_eq_true] at hg
    unfold vlGateOk at hg
    unfold processSel
    by_cases hf : sel.format = jstr "value_list_int_array"
    · rw [if_pos hf] at hg
      rw [if_pos hf]
      by_cases hv : strTruthy sel.valueId
      · rw [hv] at hg
        simp only [Bool.true_and] at hg
        rw [hv, if_neg (of_decide_eq_false hg)]
        exact ⟨_, rfl⟩
      · rw [Bool.not_eq_true] at hv
        rw [hv]
        exact ⟨[], (List.append_nil _).symm⟩
    · rw [if_neg hf] at hg
      cases hg

theorem processSelections_rejected_extend (vs : List (List Char)) (l : List Selection)
    (st : PState) : ∃ d, (processSelections vs l st).rejected = st.rejected ++ d := by
  induction l generalizing st with
  | nil => exact ⟨[], (List.append_nil _).symm⟩
  | cons sel rest ih =>
    rw [processSelections_cons]
    obtain ⟨d1, hd1⟩ := processSel_rejected_extend vs st sel
    obtain ⟨d2, hd2⟩ := ih (processSel vs st sel)
    exact ⟨d1 ++ d2, by rw [hd2, hd1, List.append_assoc]⟩

theorem mem_rejected_processSelections (vs : List (List Char)) (l : List Selection)
    (st : PState) (r : RejectedAttr) (h : r ∈ st.rejected) :
    r ∈ (processSelections vs l st).rejected := by
  obtain ⟨d, hd⟩ := processSelections_rejected_extend vs l st
  rw [hd]
  exact List.mem_append_left _ h

/-! ## Placement characterizations -/

theorem strTruthy_some {x : Option (List Char)} (h : strTruthy x = true) :
    x = some (x.getD []) ∧ x.getD [] ≠ [] := by
  cases x with
  | none => cases h
  | some s =>
    cases s with
    | nil => cases h
    | cons c cs => exact ⟨rfl, by simp⟩

theorem top_keys_processSelections (vs : List (List Char)) (l : List Selection) (st : PState)
    (c : List Char) :
    c ∈ keysA (processSelections vs l st).top ↔
      c ∈ keysA st.top ∨ ∃ sel, sel ∈ l ∧ sel.code = c ∧ placesTop vs sel := by
  induction l generalizing st with
  | nil =>
    rw [processSelections_nil]
    simp
  | cons sel rest ih =>
    rw [processSelections_cons, ih]
    by_cases hg : vlGateOk vs sel = true
    · rw [processSel_pass vs st sel hg]
      cases hv : selectionToE2Value sel with
      | none =>
        rw [convertAndPlace_none sel st hv]
        constructor
        · rintro (h | ⟨s, hs, hc, hp⟩)
          · exact Or.inl h
          · exact Or.inr ⟨s, List.mem_cons_of_mem _ hs, hc, hp⟩
        · rintro (h | ⟨s, hs, hc, hp⟩)
          · exact Or.inl h
          · rcases List.mem_cons.1 hs with rfl | hs2
            · obtain ⟨v, hv2⟩ := hp.2.1
              rw [hv] at hv2
              cases hv2
            · exact Or.inr ⟨s, hs2, hc, hp⟩
      | some v =>
        by_cases he : strTruthy sel.entity_path
        · rw [convertAndPlace_ent sel st v hv he]
          constructor
          · rintro (h | ⟨s, hs, hc, hp⟩)
            · exact Or.inl h
            · exact Or.inr ⟨s, List.mem_cons_of_mem _ hs, hc, hp⟩
          · rintro (h | ⟨s, hs, hc, hp⟩)
            · exact Or.inl h
            · rcases List.mem_cons.1 hs with rfl | hs2
              · rw [hp.2.2] at he
                cases he
              · exact Or.inr ⟨s, hs2, hc, hp⟩
        · rw [Bool.not_eq_true] at he
          rw [convertAndPlace_top sel st v hv he]
          have hkey := mem_keysA_setKey st.top sel.code c v
          constructor
          · rintro (h | ⟨s, hs, hc, hp⟩)
            · rcases hkey.1 h with h2 | h2
              · exact Or.inl h2
              · exact Or.inr ⟨sel, List.mem_cons_self _ _, h2.symm, hg, ⟨v, hv⟩, he⟩
            · exact Or.inr ⟨s, List.mem_cons_of_mem _ hs, hc, hp⟩
          · rintro (h | ⟨s, hs, hc, hp⟩)
            · exact Or.inl (hkey.2 (Or.inl h))
            · rcases List.mem_cons.1 hs with rfl | hs2
              · exact Or.inl (hkey.2 (Or.inr hc.symm))
              · exact Or.inr ⟨s, hs2, hc, hp⟩
    · rw [Bool.not_eq_true] at hg
      have hcl := processSel_gate_closed vs st sel hg
      rw [hcl.1]
      constructor
      · rintro (h | ⟨s, hs, hc, hp⟩)
        · exact Or.inl h
        · exact Or.inr ⟨s, List.mem_cons_of_mem _ hs, hc, hp⟩
      · rintro (h | ⟨s, hs, hc, hp⟩)
        · exact Or.inl h
        · rcases List.mem_cons.1 hs with rfl | hs2
          · rw [hp.1] at hg
            cases hg
          · exact Or.inr ⟨s, hs2, hc, hp⟩

theorem ents_keys_processSelections (vs : List (List Char)) (l : List Selection) (st : PState)
    (p : List Char) :
    p ∈ keysA (processSelections vs l st).ents ↔
      p ∈ keysA st.ents ∨ ∃ sel, sel ∈ l ∧ placesEnt vs sel p := by
  induction l generalizing st with
  | nil =>
    rw [processSelections_nil]
    simp
  | cons sel rest ih =>
    rw [processSelections_cons, ih]
    by_cases hg : vlGateOk vs sel = true
    · rw [processSel_pass vs st sel hg]
      cases hv : selectionToE2Value sel with
      | none =>
        rw [convertAndPlace_none sel st hv]
        constructor
        · rintro (h | ⟨s, hs, hp⟩)
          · exact Or.inl h
          · exact Or.inr ⟨s, List.mem_cons_of_mem _ hs, hp⟩
        · rintro (h | ⟨s, hs, hp⟩)
          · exact Or.inl h
          · rcases List.mem_cons.1 hs with rfl | hs2
            · obtain ⟨v, hv2⟩ := hp.2.1
              rw [hv] at hv2
              cases hv2
            · exact Or.inr ⟨s, hs2, hp⟩
      | some v =>
        by_cases he : strTruthy sel.entity_path
        · rw [convertAndPlace_ent sel st v hv he]
          have hq := strTruthy_some he
          have hkey := mem_keysA_setKey st.ents (sel.entity_path.getD [])
            p (setKey ((lookupA st.ents (sel.entity_path.getD [])).getD []) sel.code v)
          constructor
          · rintro (h | ⟨s, hs, hp⟩)
            · rcases hkey.1 h with h2 | h2
              · exact Or.inl h2
              · refine Or.inr ⟨sel, List.mem_cons_self _ _, hg, ⟨v, hv⟩, ?_, he⟩
                rw [hq.1, h2]
            · exact Or.inr ⟨s, List.mem_cons_of_mem _ hs, hp⟩
          · rintro (h | ⟨s, hs, hp⟩)
            · exact Or.inl (hkey.2 (Or.inl h))
            · rcases List.mem_cons.1 hs with rfl | hs2
              · refine Or.inl (hkey.2 (Or.inr ?_))
                rw [hp.2.2.1]
                rfl
              · exact Or.inr ⟨s, hs2, hp⟩
        · rw [Bool.not_eq_true] at he
          rw [convertAndPlace_top sel st v hv he]
          constructor
          · rintro (h | ⟨s, hs, hp⟩)
            · exact Or.inl h
            · exact Or.inr ⟨s, List.mem_cons_of_mem _ hs, hp⟩
          · rintro (h | ⟨s, hs, hp⟩)
            · exact Or.inl h
            · rcases List.mem_cons.1 hs with rfl | hs2
              · rw [hp.2.2.2] at he
                cases he
              · exact Or.inr ⟨s, hs2, hp⟩
    · rw [Bool.not_eq_true] at hg
      have hcl := processSel_gate_closed vs st sel hg
      rw [hcl.2]
      constructor
      · rintro (h | ⟨s, hs, hp⟩)
        · exact Or.inl h
        · exact Or.inr ⟨s, List.mem_cons_of_mem _ hs, hp⟩
      · rintro (h | ⟨s, hs, hp⟩)
        · exact Or.inl h
        · rcases List.mem_cons.1 hs with rfl | hs2
          · rw [hp.1] at hg
            cases hg
          · exact Or.inr ⟨s, hs2, hp⟩

theorem ent_attr_persist (vs : List (List Char)) (l : List Selection) (st : PState)
    (p c : List Char) (attrs : List (List Char × JsonVal))
    (hl : lookupA st.ents p = some attrs) (hc : c ∈ keysA attrs) :
    ∃ attrs2, lookupA (processSelections vs l st).ents p = some attrs2 ∧ c ∈ keysA attrs2 := by
  induction l generalizing st attrs with
  | nil =>
    rw [processSelections_nil]
    exact ⟨attrs, hl, hc⟩
  | cons sel rest ih =>
    rw [processSelections_cons]
    by_cases hg : vlGateOk vs sel = true
    · rw [processSel_pass vs st sel hg]
      cases hv : selectionToE2Value sel with
      | none =>
        rw [convertAndPlace_none sel st hv]
        exact ih _ _ hl hc
      | some v =>
        by_cases he : strTruthy sel.entity_path
        · rw [convertAndPlace_ent sel st v hv he]
          by_cases hpq : sel.entity_path.getD [] = p
          · rw [← hpq] at hl
            refine ih _ (setKey ((lookupA st.ents (sel.entity_path.getD [])).getD []) sel.code v) ?_ ?_
            · show lookupA (setKey st.ents (sel.entity_path.getD []) _) p = _
              rw [← hpq, lookupA_setKey_self]
            · rw [hl]
              exact (mem_keysA_setKey attrs sel.code c v).2 (Or.inl hc)
          · refine ih _ attrs ?_ hc
            show lookupA (setKey st.ents (sel.entity_path.getD []) _) p = _
            rw [lookupA_setKey_ne _ _ _ _ hpq]
            exact hl
        · rw [Bool.not_eq_true] at he
          rw [convertAndPlace_top sel st v hv he]
          exact ih _ _ hl hc
    · rw [Bool.not_eq_true] at hg
      have hcl := processSel_gate_closed vs st sel hg
      refine ih _ attrs ?_ hc
      rw [hcl.2]
      exact hl

theorem ent_placed (vs : List (List Char)) (sel : Selection) (p : List Char)
    (hp : placesEnt vs sel p) :
    ∀ (l : List Selection), sel ∈ l → ∀ (st : PState),
      ∃ attrs, lookupA (processSelections vs l st).ents p = some attrs ∧
        sel.code ∈ keysA attrs := by
  intro l
  induction l with
  | nil => intro h; cases h
  | cons hd rest ih =>
    intro hmem st
    rw [processSelections_cons]
    rcases List.mem_cons.1 hmem with rfl | hmem2
    · obtain ⟨hg, ⟨v, hv⟩, hep, htr⟩ := hp
      rw [processSel_pass vs st sel hg, convertAndPlace_ent sel st v hv htr]
      have hq : sel.entity_path.getD [] = p := by rw [hep]; rfl
      refine ent_attr_persist vs rest _ p sel.code
        (setKey ((lookupA st.ents (sel.entity_path.getD [])).getD []) sel.code v) ?_ ?_
      · show lookupA (setKey st.ents (sel.entity_path.getD []) _) p = _
        rw [← hq, lookupA_setKey_self]
      · exact (mem_keysA_setKey _ sel.code sel.code v).2 (Or.inr rfl)
    · exact ih hmem2 _

theorem nodup_ents_processSelections (vs : List (List Char)) (l : List Selection) (st : PState)
    (h : (keysA st.ents).Nodup) : (keysA (processSelections vs l st).ents).Nodup := by
  induction l generalizing st with
  | nil => exact h
  | cons sel rest ih =>
    rw [processSelections_cons]
    by_cases hg : vlGateOk vs sel = true
    · rw [processSel_pass vs st sel hg]
      cases hv : selectionToE2Value sel with
      | none =>
        rw [convertAndPlace_none sel st hv]
        exact ih _ h
      | some v =>
        by_cases he : strTruthy sel.entity_path
        · rw [convertAndPlace_ent sel st v hv he]
          exact ih _ (nodup_keysA_setKey st.ents _ _ h)
        · rw [Bool.not_eq_true] at he
          rw [convertAndPlace_top sel st v hv he]
          exact ih _ h
    · rw [Bool.not_eq_true] at hg
      have hcl := processSel_gate_closed vs st sel hg
      refine ih _ ?_
      rw [hcl.2]
      exact h

theorem mem_unique_of_nodup_keys {v : Type} (m : List (List Char × v)) (p : List Char)
    (x y : v) (hx : (p, x) ∈ m) (hy : (p, y) ∈ m) (hnd : (keysA m).Nodup) : x = y := by
  have h1 := lookupA_of_mem_nodup m p x hx hnd
  have h2 := lookupA_of_mem_nodup m p y hy hnd
  rw [h1] at h2
  cases h2
  rfl

/-! ## buildEntities lemmas -/

theorem buildEntities_foldl_mem (ents : List (List Char × List (List Char × JsonVal)))
    (acc : List (List Char × List EntityObj)) (p : List Char) (l : List EntityObj)
    (h : (p, l) ∈ ents.foldl
      (fun acc2 pr =>
        if 0 < pr.2.length then acc2 ++ [(pr.1, [⟨generateEntityId pr.1, pr.2⟩])] else acc2)
      acc) :
    (p, l) ∈ acc ∨ ∃ attrs, (p, attrs) ∈ ents ∧ l = [⟨generateEntityId p, attrs⟩] ∧
      0 < attrs.length := by
  induction ents generalizing acc with
  | nil => exact Or.inl h
  | cons hd tl ih =>
    rw [List.foldl_cons] at h
    rcases ih _ h with h2 | ⟨attrs, ha, hl, hlen⟩
    · by_cases hlen : 0 < hd.2.length
      · rw [if_pos hlen] at h2
        rcases List.mem_append.1 h2 with h3 | h3
        · exact Or.inl h3
        · have h4 := List.mem_singleton.1 h3
          rw [Prod.mk.injEq] at h4
          obtain ⟨hp, hl⟩ := h4
          subst hp
          subst hl
          exact Or.inr ⟨hd.2, List.mem_cons_self _ _, rfl, hlen⟩
      · rw [if_neg hlen] at h2
        exact Or.inl h2
    · exact Or.inr ⟨attrs, List.mem_cons_of_mem _ ha, hl, hlen⟩

theorem buildEntities_mem (ents : List (List Char × List (List Char × JsonVal)))
    (es : List (List Char × List EntityObj)) (p : List Char) (l : List EntityObj)
    (hsome : buildEntities ents = some es) (h : (p, l) ∈ es) :
    ∃ attrs, (p, attrs) ∈ ents ∧ l = [⟨generateEntityId p, attrs⟩] ∧ 0 < attrs.length := by
  unfold buildEntities at hsome
  by_cases hlen : 0 < ents.length
  · rw [if_pos hlen] at hsome
    cases hsome
    rcases buildEntities_foldl_mem ents [] p l h with h2 | h2
    · cases h2
    · exact h2
  · rw [if_neg hlen] at hsome
    cases hsome

theorem buildEntities_foldl_acc (ents : List (List Char × List (List Char × JsonVal)))
    (acc : List (List Char × List EntityObj)) (q : List Char × List EntityObj)
    (h : q ∈ acc) :
    q ∈ ents.foldl
      (fun acc2 pr =>
        if 0 < pr.2.length then acc2 ++ [(pr.1, [⟨generateEntityId pr.1, pr.2⟩])] else acc2)
      acc := by
  induction ents generalizing acc with
  | nil => exact h
  | cons hd tl ih =>
    rw [List.foldl_cons]
    refine ih _ ?_
    by_cases hlen : 0 < hd.2.length
    · rw [if_pos hlen]
      exact List.mem_append_left _ h
    · rw [if_neg hlen]
      exact h

theorem buildEntities_foldl_complete (ents : List (List Char × List (List Char × JsonVal))) :
    ∀ (acc : List (List Char × List EntityObj)) (p : List Char)
      (attrs : List (List Char × JsonVal)), (p, attrs) ∈ ents → 0 < attrs.length →
      (p, [⟨generateEntityId p, attrs⟩]) ∈ ents.foldl
        (fun acc2 pr =>
          if 0 < pr.2.length then acc2 ++ [(pr.1, [⟨generateEntityId pr.1, pr.2⟩])] else acc2)
        acc := by
  induction ents with
  | nil => intro acc p attrs hmem _; cases hmem
  | cons hd tl ih =>
    intro acc p attrs hmem hlen
    rw [List.foldl_cons]
    rcases List.mem_cons.1 hmem with heq | hmem2
    · obtain ⟨a, b⟩ := hd
      rw [Prod.mk.injEq] at heq
      obtain ⟨hp, hb⟩ := heq
      subst hp
      subst hb
      rw [if_pos hlen]
      refine buildEntities_foldl_acc tl _ _ ?_
      exact List.mem_append_right _ (List.mem_singleton.2 rfl)
    · exact ih _ _ _ hmem2 hlen

theorem buildEntities_complete (ents : List (List Char × List (List Char × JsonVal)))
    (es : List (List Char × List EntityObj)) (p : List Char)
    (attrs : List (List Char × JsonVal)) (hmem : (p, attrs) ∈ ents)
    (hlen : 0 < attrs.length) (hsome : buildEntities ents = some es) :
    (p, [⟨generateEntityId p, attrs⟩]) ∈ es := by
  unfold buildEntities at hsome
  by_cases hl : 0 < ents.length
  · rw [if_pos hl] at hsome
    cases hsome
    exact buildEntities_foldl_complete ents [] p attrs hmem hlen
  · rw [if_neg hl] at hsome
    cases hsome

/-! ## Validity-set membership spec -/

theorem append_colon_inj (c1 : List Char) :
    ∀ (c2 v1 v2 : List Char), c1.all Char.isDigit = true → c2.all Char.isDigit = true →
      c1 ++ ':' :: v1 = c2 ++ ':' :: v2 → c1 = c2 ∧ v1 = v2 := by
  induction c1 with
  | nil =>
    intro c2 v1 v2 _ h2 he
    cases c2 with
    | nil =>
      rw [List.nil_append, List.nil_append] at he
      injection he with _ h4
      exact ⟨rfl, h4⟩
    | cons d ds =>
      rw [List.nil_append, List.cons_append] at he
      injection he with h3 _
      rw [List.all_cons, ← h3] at h2
      cases h2
  | cons a as ih =>
    intro c2 v1 v2 h1 h2 he
    cases c2 with
    | nil =>
      rw [List.nil_append, List.cons_append] at he
      injection he with h3 _
      rw [List.all_cons, h3] at h1
      cases h1
    | cons d ds =>
      rw [List.cons_append, List.cons_append] at he
      injection he with h3 h4
      rw [List.all_cons, Bool.and_eq_true] at h1 h2
      obtain ⟨h5, h6⟩ := ih ds v1 v2 h1.2 h2.2 h4
      exact ⟨by rw [h3, h5], h6⟩

theorem taxKey_inj (c1 c2 v1 v2 : List Char) (h1 : c1.all Char.isDigit = true)
    (h2 : c2.all Char.isDigit = true)
    (he : taxKey (vlKeyOf c1) v1 = taxKey (vlKeyOf c2) v2) : c1 = c2 ∧ v1 = v2 := by
  have he2 : 'V' :: 'L' :: (c1 ++ ':' :: v1) = 'V' :: 'L' :: (c2 ++ ':' :: v2) := he
  injection he2 with _ he3
  injection he3 with _ he4
  exact append_colon_inj c1 c2 v1 v2 h1 h2 he4

theorem mem_addPair (g : List (List Char × List (List Char))) (code v c : List Char)
    (vs : List (List Char)) (h : (c, vs) ∈ addPair g code v) : (c, vs) ∈ g ∨ c = code := by
  induction g with
  | nil =>
    rcases List.mem_singleton.1 h with h2
    rw [Prod.mk.injEq] at h2
    exact Or.inr h2.1
  | cons hd tl ih =>
    obtain ⟨a, us⟩ := hd
    rw [show addPair ((a, us) :: tl) code v =
        (if a = code then (a, if v ∈ us then us else us ++ [v]) :: tl
         else (a, us) :: addPair tl code v) from rfl] at h
    by_cases hac : a = code
    · rw [if_pos hac] at h
      rcases List.mem_cons.1 h with h2 | h2
      · rw [Prod.mk.injEq] at h2
        exact Or.inr (h2.1.trans hac)
      · exact Or.inl (List.mem_cons_of_mem _ h2)
    · rw [if_neg hac] at h
      rcases List.mem_cons.1 h with h2 | h2
      · exact Or.inl (h2 ▸ List.mem_cons_self _ _)
      · rcases ih h2 with h3 | h3
        · exact Or.inl (List.mem_cons_of_mem _ h3)
        · exact Or.inr h3

theorem addPair_self (g : List (List Char × List (List Char))) (code v : List Char) :
    ∃ vs, (code, vs) ∈ addPair g code v ∧ v ∈ vs := by
  induction g with
  | nil => exact ⟨[v], List.mem_singleton.2 rfl, List.mem_singleton.2 rfl⟩
  | cons hd tl ih =>
    obtain ⟨a, us⟩ := hd
    rw [show addPair ((a, us) :: tl) code v =
        (if a = code then (a, if v ∈ us then us else us ++ [v]) :: tl
         else (a, us) :: addPair tl code v) from rfl]
    by_cases hac : a = code
    · subst hac
      rw [if_pos rfl]
      refine ⟨if v ∈ us then us else us ++ [v], List.mem_cons_self _ _, ?_⟩
      by_cases hv : v ∈ us
      · rw [if_pos hv]; exact hv
      · rw [if_neg hv]; exact List.mem_append_right _ (List.mem_singleton.2 rfl)
    · rw [if_neg hac]
      obtain ⟨vs, h1, h2⟩ := ih
      exact ⟨vs, List.mem_cons_of_mem _ h1, h2⟩

theorem addPair_preserve (g : List (List Char × List (List Char))) (code2 v2 code v : List Char)
    (h : ∃ vs, (code, vs) ∈ g ∧ v ∈ vs) :
    ∃ vs, (code, vs) ∈ addPair g code2 v2 ∧ v ∈ vs := by
  induction g with
  | nil =>
    obtain ⟨vs, h1, _⟩ := h
    cases h1
  | cons hd tl ih =>
    obtain ⟨a, us⟩ := hd
    obtain ⟨vs, h1, h2⟩ := h
    rw [show addPair ((a, us) :: tl) code2 v2 =
        (if a = code2 then (a, if v2 ∈ us then us else us ++ [v2]) :: tl
         else (a, us) :: addPair tl code2 v2) from rfl]
    by_cases hac : a = code2
    · rw [if_pos hac]
      rcases List.mem_cons.1 h1 with h3 | h3
      · rw [Prod.mk.injEq] at h3
        obtain ⟨h4, h5⟩ := h3
        subst h4
        refine ⟨if v2 ∈ us then us else us ++ [v2], List.mem_cons_self _ _, ?_⟩
        rw [← h5] at *
        by_cases hv2 : v2 ∈ vs
        · rw [if_pos hv2]; exact h2
        · rw [if_neg hv2]; exact List.mem_append_left _ h2
      · exact ⟨vs, List.mem_cons_of_mem _ h3, h2⟩
    · rw [if_neg hac]
      rcases List.mem_cons.1 h1 with h3 | h3
      · exact ⟨vs, h3 ▸ List.mem_cons_self _ _, h2⟩
      · obtain ⟨vs2, h4, h5⟩ := ih ⟨vs, h3, h2⟩
        exact ⟨vs2, List.mem_cons_of_mem _ h4, h5⟩

theorem groupPairs_foldl_codes (pairs : List VPair) :
    ∀ (acc : List (List Char × List (List Char))) (c : List Char) (vs : List (List Char)),
      (c, vs) ∈ pairs.foldl
        (fun acc2 p => if p.code = [] then acc2 else addPair acc2 p.code p.valueId) acc →
      (c, vs) ∈ acc ∨ ∃ q, q ∈ pairs ∧ q.code = c := by
  induction pairs with
  | nil => intro acc c vs h; exact Or.inl h
  | cons p rest ih =>
    intro acc c vs h
    rw [List.foldl_cons] at h
    rcases ih _ c vs h with h2 | ⟨q, hq, hqc⟩
    · by_cases hpc : p.code = []
      · rw [if_pos hpc] at h2
        exact Or.inl h2
      · rw [if_neg hpc] at h2
        rcases mem_addPair acc p.code p.valueId c vs h2 with h3 | h3
        · exact Or.inl h3
        · exact Or.inr ⟨p, List.mem_cons_self _ _, h3.symm⟩
    · exact Or.inr ⟨q, List.mem_cons_of_mem _ hq, hqc⟩

theorem groupPairs_foldl_preserve (pairs : List VPair) :
    ∀ (acc : List (List Char × List (List Char))) (code v : List Char),
      (∃ vs, (code, vs) ∈ acc ∧ v ∈ vs) →
      ∃ vs, (code, vs) ∈ pairs.foldl
        (fun acc2 p => if p.code = [] then acc2 else addPair acc2 p.code p.valueId) acc ∧
        v ∈ vs := by
  induction pairs with
  | nil => intro acc code v h; exact h
  | cons p rest ih =>
    intro acc code v h
    rw [List.foldl_cons]
    refine ih _ code v ?_
    by_cases hpc : p.code = []
    · rw [if_pos hpc]; exact h
    · rw [if_neg hpc]
      exact addPair_preserve acc p.code p.valueId code v h

theorem groupPairs_presence (pairs : List VPair) :
    ∀ (acc : List (List Char × List (List Char))) (q : VPair), q ∈ pairs → q.code ≠ [] →
      ∃ vs, (q.code, vs) ∈ pairs.foldl
        (fun acc2 p => if p.code = [] then acc2 else addPair acc2 p.code p.valueId) acc ∧
        q.valueId ∈ vs := by
  induction pairs with
  | nil => intro acc q hq _; cases hq
  | cons p rest ih =>
    intro acc q hq hqc
    rw [List.foldl_cons]
    rcases List.mem_cons.1 hq with rfl | hq2
    · rw [if_neg hqc]
      exact groupPairs_foldl_preserve rest _ q.code q.valueId
        (addPair_self acc q.code q.valueId)
    · exact ih _ q hq2 hqc

theorem mem_tableVlQuery (t : List CatalogRow) (k : List Char) (vals : List (List Char))
    (row : CatalogRow) :
    row ∈ t.filter (fun r => decide (r.value_list_key = k ∧ r.value_id ∈ vals)) ↔
      row ∈ t ∧ row.value_list_key = k ∧ row.value_id ∈ vals := by
  rw [List.mem_filter, decide_eq_true_eq]

theorem runVlQueries_table_ok (t : List CatalogRow)
    (groups : List (List Char × List (List Char))) :
    ∀ valid, ∃ final, runVlQueries (tableVlQuery t) groups valid = .ok final := by
  induction groups with
  | nil => intro valid; exact ⟨valid, rfl⟩
  | cons g rest ih =>
    intro valid
    obtain ⟨c, vs⟩ := g
    exact ih _

theorem runVlQueries_table_acc (t : List CatalogRow)
    (groups : List (List Char × List (List Char))) :
    ∀ valid final, runVlQueries (tableVlQuery t) groups valid = .ok final →
      ∀ k, k ∈ valid → k ∈ final := by
  induction groups with
  | nil =>
    intro valid final h k hk
    cases h
    exact hk
  | cons g rest ih =>
    intro valid final h k hk
    obtain ⟨c, vs⟩ := g
    exact ih _ final h k (List.mem_append_left _ hk)

theorem runVlQueries_table_add (t : List CatalogRow)
    (groups : List (List Char × List (List Char))) :
    ∀ valid final, runVlQueries (tableVlQuery t) groups valid = .ok final →
      ∀ c vs, (c, vs) ∈ groups → ∀ row, row ∈ t → row.value_list_key = vlKeyOf c →
        row.value_id ∈ vs → taxKey (vlKeyOf c) row.value_id ∈ final := by
  induction groups with
  | nil =>
    intro valid final _ c vs hg
    cases hg
  | cons g rest ih =>
    intro valid final h c vs hg row hrow hkey hval
    obtain ⟨c2, vs2⟩ := g
    rcases List.mem_cons.1 hg with heq | hg2
    · rw [Prod.mk.injEq] at heq
      obtain ⟨h1, h2⟩ := heq
      subst h1
      subst h2
      refine runVlQueries_table_acc t rest _ final h _ ?_
      refine List.mem_append_right _ ?_
      refine List.mem_map.2 ⟨row, ?_, by rw [hkey]⟩
      exact (mem_tableVlQuery t (vlKeyOf c) vs row).2 ⟨hrow, hkey, hval⟩
    · exact ih _ final h c vs hg2 row hrow hkey hval

theorem runVlQueries_table_sound (t : List CatalogRow)
    (groups : List (List Char × List (List Char))) :
    ∀ valid final, runVlQueries (tableVlQuery t) groups valid = .ok final →
      ∀ k, k ∈ final → k ∈ valid ∨ ∃ c vs row, (c, vs) ∈ groups ∧ row ∈ t ∧
        row.value_list_key = vlKeyOf c ∧ k = taxKey (vlKeyOf c) row.value_id := by
  induction groups with
  | nil =>
    intro valid final h k hk
    cases h
    exact Or.inl hk
  | cons g rest ih =>
    intro valid final h k hk
    obtain ⟨c2, vs2⟩ := g
    rcases ih _ final h k hk with h2 | ⟨c, vs, row, hg, hrow, hkey, hk2⟩
    · rcases List.mem_append.1 h2 with h3 | h3
      · exact Or.inl h3
      · obtain ⟨row, hrow, hmap⟩ := List.mem_map.1 h3
        rw [mem_tableVlQuery] at hrow
        exact Or.inr ⟨c2, vs2, row, List.mem_cons_self _ _, hrow.1, hrow.2.1,
          by rw [← hmap, hrow.2.1]⟩
    · exact Or.inr ⟨c, vs, row, List.mem_cons_of_mem _ hg, hrow, hkey, hk2⟩

theorem validate_mem_iff (t : List CatalogRow) (pairs : List VPair)
    (hdig : ∀ q, q ∈ pairs → q.code ≠ [] ∧ q.code.all Char.isDigit = true)
    (c v : List Char) (hc : (⟨c, v⟩ : VPair) ∈ pairs)
    (vs : List (List Char))
    (hok : validateValueListSelections (tableVlQuery t) pairs = .ok vs) :
    taxKey (vlKeyOf c) v ∈ vs ↔
      ∃ row, row ∈ t ∧ row.value_list_key = vlKeyOf c ∧ row.value_id = v := by
  unfold validateValueListSelections at hok
  constructor
  · intro hmem
    rcases runVlQueries_table_sound t (groupPairs pairs) [] vs hok _ hmem with h2 | h2
    · cases h2
    · obtain ⟨c2, vs2, row, hg, hrow, hkey, hk2⟩ := h2
      obtain ⟨q, hq, hqc⟩ :=
        (groupPairs_foldl_codes pairs [] c2 vs2 hg).resolve_left (by intro h3; cases h3)
      have hc2dig : c2.all Char.isDigit = true := hqc ▸ (hdig q hq).2
      have hcdig : c.all Char.isDigit = true := (hdig ⟨c, v⟩ hc).2
      obtain ⟨hceq, hveq⟩ := taxKey_inj c c2 v row.value_id hcdig hc2dig hk2
      subst hceq
      exact ⟨row, hrow, hkey, hveq.symm⟩
  · intro ⟨row, hrow, hkey, hval⟩
    obtain ⟨vs2, hg, hv⟩ :=
      groupPairs_presence pairs [] ⟨c, v⟩ hc (hdig ⟨c, v⟩ hc).1
    have := runVlQueries_table_add t (groupPairs pairs) [] vs hok c vs2 hg row hrow hkey
      (hval ▸ hv)
    rw [hval] at this
    exact this

/-! ## toAttributeCode characterization -/

theorem digit_not_ws (ch : Char) (h : ch.isDigit = true) : ch.isWhitespace = false := by
  by_contra hw
  rw [Bool.not_eq_false] at hw
  simp only [Char.isWhitespace, Bool.or_eq_true, decide_eq_true_eq] at hw
  rcases hw with ((rfl | rfl) | rfl) | rfl <;> exact absurd h (by decide)

theorem dropWhile_eq_self_of_none (P : Char → Bool) (s : List Char)
    (h : ∀ ch ∈ s, P ch = false) : s.dropWhile P = s := by
  cases s with
  | nil => rfl
  | cons a t =>
    rw [List.dropWhile_cons, h a (List.mem_cons_self _ _)]
    simp

theorem jsTrim_eq_self (s : List Char) (h : ∀ ch ∈ s, ch.isWhitespace = false) :
    jsTrim s = s := by
  unfold jsTrim
  rw [dropWhile_eq_self_of_none _ s h,
    dropWhile_eq_self_of_none _ s.reverse (fun ch hc => h ch (List.mem_reverse.1 hc)),
    List.reverse_reverse]

theorem toAttributeCode_digits (x : Option (List Char)) (c : List Char)
    (h : toAttributeCode x = some c) : c ≠ [] ∧ c.all Char.isDigit = true := by
  cases x with
  | none => cases h
  | some raw =>
    simp only [toAttributeCode] at h
    by_cases h1 : jsTrim raw = []
    · rw [if_pos h1] at h; cases h
    · rw [if_neg h1] at h
      by_cases h2 : (jsTrim raw).all Char.isDigit
      · rw [if_pos h2] at h
        cases h
        exact ⟨h1, h2⟩
      · rw [if_neg h2] at h
        cases hs : jsTrim raw with
        | nil => rw [hs] at h; cases h
        | cons c1 rest1 =>
          cases rest1 with
          | nil => rw [hs] at h; cases h
          | cons c2 rest =>
            rw [hs] at h
            have h4 : (if (c1 = 'v' ∨ c1 = 'V') ∧ (c2 = 'l' ∨ c2 = 'L') ∧
                rest ≠ [] ∧ rest.all Char.isDigit = true then some rest else none) = some c := h
            by_cases h3 : (c1 = 'v' ∨ c1 = 'V') ∧ (c2 = 'l' ∨ c2 = 'L') ∧
                rest ≠ [] ∧ rest.all Char.isDigit = true
            · rw [if_pos h3] at h4
              cases h4
              exact ⟨h3.2.2.1, h3.2.2.2⟩
            · rw [if_neg h3] at h4
              cases h4

theorem toAttributeCode_some_inv (s c : List Char) (h : toAttributeCode (some s) = some c) :
    (jsTrim s = c ∧ c ≠ [] ∧ c.all Char.isDigit = true) ∨
    ∃ c1 c2, jsTrim s = c1 :: c2 :: c ∧ (c1 = 'v' ∨ c1 = 'V') ∧ (c2 = 'l' ∨ c2 = 'L') ∧
      c ≠ [] ∧ c.all Char.isDigit = true := by
  simp only [toAttributeCode] at h
  by_cases h1 : jsTrim s = []
  · rw [if_pos h1] at h; cases h
  · rw [if_neg h1] at h
    by_cases h2 : (jsTrim s).all Char.isDigit
    · rw [if_pos h2] at h
      cases h
      exact Or.inl ⟨rfl, h1, h2⟩
    · rw [if_neg h2] at h
      cases hs : jsTrim s with
      | nil => rw [hs] at h; cases h
      | cons c1 rest1 =>
        cases rest1 with
        | nil => rw [hs] at h; cases h
        | cons c2 rest =>
          rw [hs] at h
          have h4 : (if (c1 = 'v' ∨ c1 = 'V') ∧ (c2 = 'l' ∨ c2 = 'L') ∧
              rest ≠ [] ∧ rest.all Char.isDigit = true then some rest else none) = some c := h
          by_cases h3 : (c1 = 'v' ∨ c1 = 'V') ∧ (c2 = 'l' ∨ c2 = 'L') ∧
              rest ≠ [] ∧ rest.all Char.isDigit = true
          · rw [if_pos h3] at h4
            cases h4
            exact Or.inr ⟨c1, c2, rfl, h3.1, h3.2.1, h3.2.2⟩
          · rw [if_neg h3] at h4
            cases h4

theorem toAttributeCode_of_digits (d : List Char) (h1 : d ≠ [])
    (h2 : d.all Char.isDigit = true) : toAttributeCode (some d) = some d := by
  have htrim : jsTrim d = d := by
    refine jsTrim_eq_self d (fun ch hc => ?_)
    exact digit_not_ws ch (by
      rw [List.all_eq_true] at h2
      exact h2 ch hc)
  simp only [toAttributeCode, htrim]
  rw [if_neg h1, if_pos h2]

theorem toAttributeCode_of_vl (c1 c2 : Char) (d : List Char)
    (hc1 : c1 = 'v' ∨ c1 = 'V') (hc2 : c2 = 'l' ∨ c2 = 'L') (h1 : d ≠ [])
    (h2 : d.all Char.isDigit = true) : toAttributeCode (some (c1 :: c2 :: d)) = some d := by
  have htrim : jsTrim (c1 :: c2 :: d) = c1 :: c2 :: d := by
    refine jsTrim_eq_self _ (fun ch hc => ?_)
    rcases List.mem_cons.1 hc with rfl | hc
    · rcases hc1 with rfl | rfl <;> decide
    rcases List.mem_cons.1 hc with rfl | hc
    · rcases hc2 with rfl | rfl <;> decide
    · exact digit_not_ws ch (by
        rw [List.all_eq_true] at h2
        exact h2 ch hc)
  have hall : (c1 :: c2 :: d).all Char.isDigit = false := by
    rw [List.all_cons, Bool.and_eq_false_iff]
    left
    rcases hc1 with rfl | rfl <;> decide
  simp only [toAttributeCode, htrim]
  rw [if_neg (by simp), if_neg (by rw [hall]; exact Bool.false_ne_true)]
  show (if (c1 = 'v' ∨ c1 = 'V') ∧ (c2 = 'l' ∨ c2 = 'L') ∧
      d ≠ [] ∧ d.all Char.isDigit = true then some d else none) = some d
  rw [if_pos ⟨hc1, hc2, h1, h2⟩]

/-! ## buildSelections code facts -/

theorem mkGenericSelection_code (r : GenericRow) (sel : Selection)
    (h : mkGenericSelection r = some sel) :
    toAttributeCode r.attribute_code = some sel.code := by
  unfold mkGenericSelection at h
  cases h2 : toAttributeCode r.attribute_code with
  | none => rw [h2] at h; cases h
  | some code =>
    rw [h2] at h
    cases h
    rfl

theorem buildSelectionsLegacy_codes (db : Db) (src : List Char) (sels : List Selection)
    (h : buildSelectionsLegacy db = .ok (src, sels)) :
    ∀ sel, sel ∈ sels → sel.code ≠ [] ∧ sel.code.all Char.isDigit = true := by
  unfold buildSelectionsLegacy at h
  cases hw : db.wideRow with
  | error e => rw [hw] at h; cases h
  | ok wopt =>
    rw [hw] at h
    cases wopt with
    | none =>
      cases h
      intro sel hs
      cases hs
    | some w =>
      cases hi : db.integrationRow with
      | error e => rw [hi] at h; cases h
      | ok integ =>
        rw [hi] at h
        cases h
        intro sel hs
        rcases List.mem_append.1 hs with hs2 | hs2
        · rcases List.mem_append.1 hs2 with hs3 | hs3
          · rcases List.mem_cons.1 hs3 with rfl | hs4
            · exact ⟨(by decide : jstr "431" ≠ []),
                (by decide : (jstr "431").all Char.isDigit = true)⟩
            · rcases List.mem_singleton.1 hs4 with rfl
              exact ⟨(by decide : jstr "453" ≠ []),
                (by decide : (jstr "453").all Char.isDigit = true)⟩
          · by_cases hp : strTruthy w.phase_of_flight = true
            · rw [if_pos hp] at hs3
              rcases List.mem_singleton.1 hs3 with rfl
              exact ⟨(by decide : jstr "1072" ≠ []),
                (by decide : (jstr "1072").all Char.isDigit = true)⟩
            · rw [if_neg hp] at hs3
              cases hs3
        · by_cases ha : strTruthy w.aircraft_category = true
          · rw [if_pos ha] at hs2
            rcases List.mem_singleton.1 hs2 with rfl
            exact ⟨(by decide : jstr "32" ≠ []),
              (by decide : (jstr "32").all Char.isDigit = true)⟩
          · rw [if_neg ha] at hs2
            cases hs2

theorem buildSelections_codes (db : Db) (src : List Char) (sels : List Selection)
    (h : buildSelections db = .ok (src, sels)) :
    ∀ sel, sel ∈ sels → sel.code ≠ [] ∧ sel.code.all Char.isDigit = true := by
  unfold buildSelections at h
  cases hg : db.genericAttrs with
  | error e => rw [hg] at h; cases h
  | ok gopt =>
    rw [hg] at h
    cases gopt with
    | none => exact buildSelectionsLegacy_codes db src sels h
    | some rows =>
      have h2 : (if 0 < rows.length then
          Except.ok (jstr "incident_eccairs_attributes", rows.filterMap mkGenericSelection)
        else buildSelectionsLegacy db) = Except.ok (src, sels) := h
      by_cases hlen : 0 < rows.length
      · rw [if_pos hlen] at h2
        cases h2
        intro sel hs
        obtain ⟨r, _, hr⟩ := List.mem_filterMap.1 hs
        exact toAttributeCode_digits r.attribute_code sel.code (mkGenericSelection_code r sel hr)
      · rw [if_neg hlen] at h2
        exact buildSelectionsLegacy_codes db src sels h2

/-! ## candidatesOf lemmas -/

theorem mem_filteredOf (sels : List Selection) (sel : Selection)
    (h : sel ∈ filteredOf sels) : sel ∈ sels :=
  (List.mem_filter.1 h).1

theorem mem_candidatesOf (sels : List Selection) (q : VPair) (h : q ∈ candidatesOf sels) :
    ∃ sel, sel ∈ filteredOf sels ∧ sel.code = q.code ∧ sel.valueId = some q.valueId ∧
      sel.format = jstr "value_list_int_array" := by
  unfold candidatesOf at h
  obtain ⟨sel, hmem, hcond⟩ := List.mem_filterMap.1 h
  by_cases hc : sel.format = jstr "value_list_int_array" ∧ strTruthy sel.valueId = true
  · rw [if_pos hc] at hcond
    cases hcond
    refine ⟨sel, hmem, rfl, ?_, hc.1⟩
    exact (strTruthy_some hc.2).1
  · rw [if_neg hc] at hcond
    cases hcond

theorem candidatesOf_complete (sels : List Selection) (sel : Selection) (v : List Char)
    (h1 : sel ∈ filteredOf sels) (h2 : sel.format = jstr "value_list_int_array")
    (h3 : sel.valueId = some v) (h4 : v ≠ []) :
    (⟨sel.code, v⟩ : VPair) ∈ candidatesOf sels := by
  have htr : strTruthy sel.valueId = true := by
    rw [h3]
    cases v with
    | nil => exact absurd rfl h4
    | cons a b => rfl
  unfold candidatesOf
  refine List.mem_filterMap.2 ⟨sel, h1, ?_⟩
  rw [if_pos ⟨h2, htr⟩, h3]
  rfl

/-! ## buildE2Payload inversion -/

theorem buildE2Payload_ok_inv (db : Db) (er : Option ExportRow)
    (mode versionType : Option (List Char)) (src : List Char) (sels : List Selection)
    (vs : List (List Char)) (res : BuildResult)
    (hbs : buildSelections db = .ok (src, sels))
    (hv : validateValueListSelections db.vlQuery (candidatesOf sels) = .ok vs)
    (hok : buildE2Payload db er mode versionType = .ok res) :
    res.rejected = (processSelections vs (filteredOf sels) ⟨[], [], []⟩).rejected ∧
    res.topLevelAttributes = (processSelections vs (filteredOf sels) ⟨[], [], []⟩).top ∧
    res.entityAttributes = (processSelections vs (filteredOf sels) ⟨[], [], []⟩).ents ∧
    res.payload.tax.ATTRIBUTES = (processSelections vs (filteredOf sels) ⟨[], [], []⟩).top ∧
    res.payload.tax.ENTITIES =
      buildEntities ((processSelections vs (filteredOf sels) ⟨[], [], []⟩).ents) := by
  unfold buildE2Payload at hok
  rw [hbs] at hok
  simp only [hv] at hok
  by_cases hm : effectiveModeOf mode = jstr "edit" ∨ effectiveModeOf mode = jstr "update"
  · rw [if_pos hm] at hok
    cases he2 : jsOrNullStr (er.bind (fun r => r.e2_id)) with
    | none =>
      simp only [he2] at hok
      exact Except.noConfusion hok
    | some e2id =>
      simp only [he2] at hok
      cases hok
      exact ⟨rfl, rfl, rfl, rfl, rfl⟩
  · rw [if_neg hm] at hok
    cases hok
    exact ⟨rfl, rfl, rfl, rfl, rfl⟩

/-! ## Claim theorems -/

/-- C7: toAttributeCode canonicalizes bare digit strings to themselves and a
case-insensitive VL prefix followed by digits to the digits; null, blank and
every input whose trimmed form is neither shape yield null, and a generic row
whose code yields null produces no selection at all (excluded before
validation). -/
theorem c7_toAttributeCode_canonicalization :
    (∀ d : List Char, d ≠ [] → d.all Char.isDigit = true →
      toAttributeCode (some d) = some d) ∧
    (∀ (c1 c2 : Char) (d : List Char), (c1 = 'v' ∨ c1 = 'V') → (c2 = 'l' ∨ c2 = 'L') →
      d ≠ [] → d.all Char.isDigit = true → toAttributeCode (some (c1 :: c2 :: d)) = some d) ∧
    toAttributeCode none = none ∧
    (∀ s : List Char, jsTrim s = [] → toAttributeCode (some s) = none) ∧
    (∀ (s c : List Char), toAttributeCode (some s) = some c →
      (jsTrim s = c ∧ c ≠ [] ∧ c.all Char.isDigit = true) ∨
      ∃ c1 c2, jsTrim s = c1 :: c2 :: c ∧ (c1 = 'v' ∨ c1 = 'V') ∧ (c2 = 'l' ∨ c2 = 'L') ∧
        c ≠ [] ∧ c.all Char.isDigit = true) ∧
    (∀ r : GenericRow, toAttributeCode r.attribute_code = none → mkGenericSelection r = none) := by
  refine ⟨toAttributeCode_of_digits, toAttributeCode_of_vl, rfl, ?_, toAttributeCode_some_inv, ?_⟩
  · intro s h
    simp only [toAttributeCode]
    rw [if_pos h]
  · intro r h
    unfold mkGenericSelection
    rw [h]

/-- C7 witness: concrete canonicalizations. -/
theorem c7_witness :
    toAttributeCode (some (jstr "431")) = some (jstr "431") ∧
    toAttributeCode (some (jstr "VL431")) = some (jstr "431") ∧
    toAttributeCode (some (jstr "vl431")) = some (jstr "431") ∧
    toAttributeCode (some (jstr " ")) = none ∧
    mkGenericSelection (simpleRow "x431" "300" none none) = none := by
  refine ⟨?_, ?_, ?_, ?_, ?_⟩
  · exact c7_toAttributeCode_canonicalization.1 (jstr "431") (by decide) (by decide)
  · exact c7_toAttributeCode_canonicalization.2.1 'V' 'L' (jstr "431")
      (Or.inr rfl) (Or.inr rfl) (by decide) (by decide)
  · exact c7_toAttributeCode_canonicalization.2.1 'v' 'l' (jstr "431")
      (Or.inl rfl) (Or.inl rfl) (by decide) (by decide)
  · exact c7_toAttributeCode_canonicalization.2.2.2.1 (jstr " ") (by decide)
  · exact c7_toAttributeCode_canonicalization.2.2.2.2.2
      (simpleRow "x431" "300" none none) (by decide)

/-- C4: selectionToE2Value is total and deterministic by construction; for each
recognized format it emits the documented shape, for an unrecognized format
it falls back to the truthy raw value, else an integer array of valueId, else
null; and the 1072 content-wrapped scenario compiles to the documented
attribute value. -/
theorem c4_selectionToE2Value_shapes :
    (∀ sel : Selection, sel.format = jstr "raw_json" → selectionToE2Value sel = sel.raw) ∧
    (∀ sel : Selection, sel.format = jstr "content_object_array" →
      selectionToE2Value sel = (asInt sel.valueId).map
        (fun n => .jarr [.jobj [(jstr "content", .jarr [.jnum n])]])) ∧
    (∀ sel : Selection, sel.format = jstr "text_content_array" →
      selectionToE2Value sel =
        if strTruthy sel.text then
          some (.jarr [.jobj [(jstr "text", .jstring (sel.text.getD []))]])
        else none) ∧
    (∀ sel : Selection, sel.format = jstr "value_list_int_array" →
      selectionToE2Value sel = (asInt sel.valueId).map (fun n => .jarr [.jnum n])) ∧
    (∀ sel : Selection, sel.format ∈ [jstr "local_date", jstr "date_array",
        jstr "string_array", jstr "time_array"] →
      selectionToE2Value sel =
        if strTruthy sel.text then some (.jarr [.jstring (sel.text.getD [])]) else none) ∧
    (∀ sel : Selection, sel.format ∉ recognizedFormats →
      selectionToE2Value sel =
        match sel.raw with
        | some r => if jsonTruthy r then some r else intArrayFallback sel
        | none => intArrayFallback sel) ∧
    selectionToE2Value
      { code := jstr "1072", taxonomy_code := jstr "24",
        format := jstr "content_object_array", valueId := some (jstr "10"),
        text := none, raw := none, entity_path := none }
      = some (.jarr [.jobj [(jstr "content", .jarr [.jnum 10])]]) ∧
    (buildE2Payload db1072 none none none).map
      (fun r => lookupA r.topLevelAttributes (jstr "1072"))
      = .ok (some (.jarr [.jobj [(jstr "content", .jarr [.jnum 10])]])) := by
  refine ⟨?_, ?_, ?_, ?_, ?_, ?_, rfl, rfl⟩
  · intro sel h
    simp only [selectionToE2Value]
    rw [if_pos h]
  · intro sel h
    simp only [selectionToE2Value, h]
    rw [if_pos trivial]
    cases asInt sel.valueId <;> rfl
  · intro sel h
    simp only [selectionToE2Value, h]
    rw [if_neg (by decide), if_neg (by decide), if_pos trivial]
  · intro sel h
    simp only [selectionToE2Value, h]
    rw [if_pos trivial]
    cases asInt sel.valueId <;> rfl
  · intro sel h
    simp only [List.mem_cons, List.not_mem_nil, or_false] at h
    rcases h with h | h | h | h
    · simp only [selectionToE2Value, h]
      rw [if_neg (by decide), if_neg (by decide), if_neg (by decide), if_neg (by decide),
        if_pos (Or.inl trivial)]
    · simp only [selectionToE2Value, h]
      rw [if_neg (by decide), if_neg (by decide), if_neg (by decide), if_neg (by decide),
        if_pos (Or.inr trivial)]
    · simp only [selectionToE2Value, h]
      rw [if_neg (by decide), if_neg (by decide), if_neg (by decide), if_neg (by decide),
        if_neg (by decide), if_pos trivial]
    · simp only [selectionToE2Value, h]
      rw [if_neg (by decide), if_neg (by decide), if_neg (by decide), if_neg (by decide),
        if_neg (by decide), if_neg (by decide), if_pos trivial]
  · intro sel h
    have hne : ∀ x : List Char, x ∈ recognizedFormats → sel.format ≠ x :=
      fun x hx he => h (he ▸ hx)
    simp only [selectionToE2Value]
    rw [if_neg (hne _ (by decide)), if_neg (hne _ (by decide)), if_neg (hne _ (by decide)),
      if_neg (hne _ (by decide)),
      if_neg (by
        intro hor
        rcases hor with he | he
        · exact hne _ (by decide) he
        · exact hne _ (by decide) he),
      if_neg (hne _ (by decide)), if_neg (hne _ (by decide))]
    cases sel.raw <;> rfl

theorem buildSelections_genericNone (db : Db) (hg : db.genericAttrs = .ok none) :
    buildSelections db = buildSelectionsLegacy db := by
  unfold buildSelections
  rw [hg]

theorem buildSelectionsLegacy_eq (db : Db) (w : WideRow) (integ : Option IntegrationRow)
    (hw : db.wideRow = .ok (some w)) (hi : db.integrationRow = .ok integ) :
    buildSelectionsLegacy db = .ok (jstr "incident_eccairs_mappings",
      [{ code := jstr "431", taxonomy_code := jstr "24",
         format := jstr "value_list_int_array",
         valueId := some (jsNumToStr (occurrenceClassOf w)), text := none, raw := none,
         entity_path := none },
       { code := jstr "453", taxonomy_code := jstr "24",
         format := jstr "value_list_int_array",
         valueId := some (toString (responsibleEntityOf integ)).data, text := none, raw := none,
         entity_path := none }]
      ++ (if strTruthy w.phase_of_flight then
            [{ code := jstr "1072", taxonomy_code := jstr "24",
               format := jstr "content_object_array",
               valueId := some (w.phase_of_flight.getD []), text := none, raw := none,
               entity_path := none }]
          else [])
      ++ (if strTruthy w.aircraft_category then
            [{ code := jstr "32", taxonomy_code := jstr "24",
               format := jstr "value_list_int_array",
               valueId := some (w.aircraft_category.getD []), text := none, raw := none,
               entity_path := some (jstr "4") }]
          else [])) := by
  unfold buildSelectionsLegacy
  rw [hw, hi]

/-- C10: in edit (or update) mode with no truthy e2_id on the export row, the
compilation throws the e2_id-required error after loading and validation
(so no payload of any kind is produced); a loader failure propagates first. -/
theorem c10_edit_requires_e2Id :
    (∀ (db : Db) (er : Option ExportRow) (mode versionType : Option (List Char))
      (src : List Char) (sels : List Selection) (vs : List (List Char)),
      buildSelections db = .ok (src, sels) →
      validateValueListSelections db.vlQuery (candidatesOf sels) = .ok vs →
      (effectiveModeOf mode = jstr "edit" ∨ effectiveModeOf mode = jstr "update") →
      jsOrNullStr (er.bind (fun r => r.e2_id)) = none →
      buildE2Payload db er mode versionType = .error e2IdRequiredMsg) ∧
    (∀ (db : Db) (er : Option ExportRow) (mode versionType : Option (List Char)) (e : List Char),
      buildSelections db = .error e → buildE2Payload db er mode versionType = .error e) := by
  constructor
  · intro db er mode vt src sels vs hbs hv hm he2
    unfold buildE2Payload
    rw [hbs]
    simp only [hv]
    rw [if_pos hm]
    simp only [he2]
  · intro db er mode vt e hbs
    unfold buildE2Payload
    rw [hbs]

/-- C10 witness: a concrete edit-mode compilation without an e2_id throws. -/
theorem c10_witness :
    buildE2Payload db999 none (some (jstr "edit")) none = .error e2IdRequiredMsg := by
  refine c10_edit_requires_e2Id.1 db999 none (some (jstr "edit")) none
    (jstr "incident_eccairs_mappings")
    [{ code := jstr "431", taxonomy_code := jstr "24",
       format := jstr "value_list_int_array", valueId := some (jstr "300"),
       text := none, raw := none, entity_path := none },
     { code := jstr "453", taxonomy_code := jstr "24",
       format := jstr "value_list_int_array", valueId := some (jstr "133"),
       text := none, raw := none, entity_path := none }]
    [jstr "VL431:300", jstr "VL453:133"] rfl rfl (Or.inl rfl) rfl

/-- C6: every successful create-mode compilation carries the fixed constant
document identifier in the taxonomy block, and every successful edit-mode
compilation has no ID field in the taxonomy block but carries the external
e2Id and a version indicator at the top level of the payload. -/
theorem c6_document_identifier :
    (∀ (db : Db) (er : Option ExportRow) (mode vt : Option (List Char)) (res : BuildResult),
      buildE2Payload db er mode vt = .ok res →
      ¬(effectiveModeOf mode = jstr "edit" ∨ effectiveModeOf mode = jstr "update") →
      ∃ tax, res.payload = .create tax ∧ tax.ID = some fixedDocId) ∧
    (∀ (db : Db) (er : Option ExportRow) (mode vt : Option (List Char)) (res : BuildResult),
      buildE2Payload db er mode vt = .ok res →
      (effectiveModeOf mode = jstr "edit" ∨ effectiveModeOf mode = jstr "update") →
      ∃ e2id tax, jsOrNullStr (er.bind (fun r => r.e2_id)) = some e2id ∧
        res.payload = .edit e2id (jsOrStr vt (jstr "DRAFT")) tax ∧ tax.ID = none) := by
  constructor
  · intro db er mode vt res hok hm
    unfold buildE2Payload at hok
    cases hbs : buildSelections db with
    | error e =>
      rw [hbs] at hok
      exact Except.noConfusion hok
    | ok pr =>
      obtain ⟨src, sels⟩ := pr
      rw [hbs] at hok
      cases hv : validateValueListSelections db.vlQuery (candidatesOf sels) with
      | error e =>
        simp only [hv] at hok
        exact Except.noConfusion hok
      | ok vs =>
        simp only [hv] at hok
        rw [if_neg hm] at hok
        cases hok
        exact ⟨_, rfl, rfl⟩
  · intro db er mode vt res hok hm
    unfold buildE2Payload at hok
    cases hbs : buildSelections db with
    | error e =>
      rw [hbs] at hok
      exact Except.noConfusion hok
    | ok pr =>
      obtain ⟨src, sels⟩ := pr
      rw [hbs] at hok
      cases hv : validateValueListSelections db.vlQuery (candidatesOf sels) with
      | error e =>
        simp only [hv] at hok
        exact Except.noConfusion hok
      | ok vs =>
        simp only [hv] at hok
        rw [if_pos hm] at hok
        cases he2 : jsOrNullStr (er.bind (fun r => r.e2_id)) with
        | none =>
          simp only [he2] at hok
          exact Except.noConfusion hok
        | some e2id =>
          simp only [he2] at hok
          cases hok
          exact ⟨e2id, _, rfl, rfl, rfl⟩

/-- C6 witness: concrete create and edit compilations of an empty selection
set show the ID handling of both modes. -/
theorem c6_witness :
    (∃ tax,
      ({ payload := .create ⟨some fixedDocId, [], none⟩, mode := jstr "create",
         source := jstr "none", rejected := [], topLevelAttributes := [],
         entityAttributes := [], usedCount := 0, selectionsCount := 0 } : BuildResult).payload
        = .create tax ∧ tax.ID = some fixedDocId) ∧
    (∃ e2id tax, jsOrNullStr ((some (⟨some (jstr "OR-1"), none⟩ : ExportRow)).bind
        (fun r => r.e2_id)) = some e2id ∧
      ({ payload := .edit (jstr "OR-1") (jstr "DRAFT") ⟨none, [], none⟩, mode := jstr "edit",
         source := jstr "none", rejected := [], topLevelAttributes := [],
         entityAttributes := [], usedCount := 0, selectionsCount := 0 } : BuildResult).payload
        = .edit e2id (jsOrStr none (jstr "DRAFT")) tax ∧ tax.ID = none) := by
  constructor
  · exact c6_document_identifier.1 dbEmpty none none none _ rfl (by decide)
  · exact c6_document_identifier.2 dbEmpty (some ⟨some (jstr "OR-1"), none⟩)
      (some (jstr "edit")) none _ rfl (Or.inl rfl)

/-- C5 counterexample: with occurrence_class 999 and a catalog containing both
VL431:100 and VL431:300, the compiled top-level attribute 431 is the integer
array [300], not [100] as the claim states. -/
theorem c5_counterexample :
    (buildE2Payload db999 none none none).map
      (fun r => lookupA r.topLevelAttributes (jstr "431"))
      = .ok (some (.jarr [.jnum 300])) ∧
    ¬((buildE2Payload db999 none none none).map
      (fun r => lookupA r.topLevelAttributes (jstr "431"))
      = .ok (some (.jarr [.jnum 100]))) := by
  refine ⟨rfl, ?_⟩
  intro hcontra
  have h1 : (buildE2Payload db999 none none none).map
      (fun r => lookupA r.topLevelAttributes (jstr "431"))
      = .ok (some (.jarr [.jnum 300])) := rfl
  rw [h1] at hcontra
  simp only [Except.ok.injEq, Option.some.injEq, JsonVal.jarr.injEq, List.cons.injEq,
    JsonVal.jnum.injEq, and_true] at hcontra
  exact absurd hcontra (by decide)

/-- C5 amended: in the legacy wide-row fallback, an occurrence_class whose
numeric value is not in the enumerated valid set is clamped to the default
300 (not 100): the first pushed selection carries valueId "300", and on the
concrete incident with occurrence_class 999 the compiled top-level attribute
431 equals [300]. -/
theorem c5_occurrence_class_clamp :
    (∀ w : WideRow, (∀ q : Rat, jsNumberOfNullable w.occurrence_class = some q →
        q ∉ validOccurrenceClasses) → occurrenceClassOf w = 300) ∧
    (∀ (db : Db) (w : WideRow) (integ : Option IntegrationRow),
      db.genericAttrs = .ok none → db.wideRow = .ok (some w) →
      db.integrationRow = .ok integ →
      ∃ rest, buildSelections db = .ok (jstr "incident_eccairs_mappings",
        { code := jstr "431", taxonomy_code := jstr "24",
          format := jstr "value_list_int_array",
          valueId := some (jsNumToStr (occurrenceClassOf w)), text := none, raw := none,
          entity_path := none } :: rest)) ∧
    (buildE2Payload db999 none none none).map
      (fun r => lookupA r.topLevelAttributes (jstr "431"))
      = .ok (some (.jarr [.jnum 300])) := by
  refine ⟨?_, ?_, rfl⟩
  · intro w hocc
    unfold occurrenceClassOf
    cases hq : jsNumberOfNullable w.occurrence_class with
    | none => rfl
    | some q =>
      show (if q ∈ validOccurrenceClasses then q else 300) = 300
      rw [if_neg (hocc q hq)]
  · intro db w integ hg hw hi
    rw [buildSelections_genericNone db hg, buildSelectionsLegacy_eq db w integ hw hi]
    exact ⟨_, rfl⟩

/-- C5 witness: occurrence_class 999 is clamped to 300 and the legacy
selection list for db999 starts with the 431 selection valued "300". -/
theorem c5_witness :
    occurrenceClassOf w999 = 300 ∧
    ∃ rest, buildSelections db999 = .ok (jstr "incident_eccairs_mappings",
      { code := jstr "431", taxonomy_code := jstr "24",
        format := jstr "value_list_int_array",
        valueId := some (jsNumToStr (occurrenceClassOf w999)),
        text := none, raw := none, entity_path := none } :: rest) := by
  constructor
  · refine c5_occurrence_class_clamp.1 _ ?_
    intro q hq
    have h9 : some (mkRat 999 1) = some q := hq
    injection h9 with h9b
    rw [← h9b]
    decide
  · exact c5_occurrence_class_clamp.2.1 db999 _ none rfl rfl rfl

/-- C4 witness: the content-wrapped shape at a concrete selection, and the
unrecognized-format fallback at a concrete selection. -/
theorem c4_witness :
    selectionToE2Value
      { code := jstr "1072", taxonomy_code := jstr "24",
        format := jstr "content_object_array", valueId := some (jstr "10"),
        text := none, raw := none, entity_path := none }
      = (asInt (some (jstr "10"))).map
          (fun n => .jarr [.jobj [(jstr "content", .jarr [.jnum n])]]) ∧
    selectionToE2Value
      { code := jstr "9", taxonomy_code := jstr "24",
        format := jstr "mystery_format", valueId := some (jstr "7"),
        text := none, raw := none, entity_path := none }
      = intArrayFallback
          { code := jstr "9", taxonomy_code := jstr "24",
            format := jstr "mystery_format", valueId := some (jstr "7"),
            text := none, raw := none, entity_path := none } := by
  constructor
  · exact c4_selectionToE2Value_shapes.2.1 _ rfl
  · exact c4_selectionToE2Value_shapes.2.2.2.2.2.1 _
      (by decide : jstr "mystery_format" ∉ recognizedFormats)

/-! ## Token-manager lemmas -/

theorem runTokenAttempts_nil (env : List Char × List Char → TokenResponse) (now : Int)
    (key : List Char) (cache : TokenCache) (le : Option (List Char)) :
    runTokenAttempts env now key cache [] le =
      (.error (le.getD (jstr "E2 token request failed - all attempts exhausted")), cache) := rfl

theorem runTokenAttempts_cons_ok (env : List Char × List Char → TokenResponse) (now : Int)
    (key : List Char) (cache : TokenCache) (a : List Char × List Char)
    (rest : List (List Char × List Char)) (le : Option (List Char)) (d : TokenData)
    (h : requestToken a.1 a.2 (env a) = .ok d) :
    runTokenAttempts env now key cache (a :: rest) le =
      (.ok d.access_token,
        setKey cache key ⟨d.access_token, now + d.expires_in * 1000 - skewMs⟩) := by
  unfold runTokenAttempts
  rw [h]

theorem runTokenAttempts_cons_err (env : List Char × List Char → TokenResponse) (now : Int)
    (key : List Char) (cache : TokenCache) (a : List Char × List Char)
    (rest : List (List Char × List Char)) (le : Option (List Char)) (e : List Char)
    (h : requestToken a.1 a.2 (env a) = .error e) :
    runTokenAttempts env now key cache (a :: rest) le =
      runTokenAttempts env now key cache rest (some e) := by
  simp only [runTokenAttempts, h]

theorem getE2AccessToken_miss (env : List Char × List Char → TokenResponse) (now : Int)
    (key : List Char) (cache : TokenCache) (h : lookupA cache key = none) :
    getE2AccessToken true env now key cache =
      runTokenAttempts env now key cache tokenAttempts none := by
  unfold getE2AccessToken
  rw [if_neg (by simp), h]

theorem getE2AccessToken_expired (env : List Char × List Char → TokenResponse) (now : Int)
    (key : List Char) (cache : TokenCache) (c : CachedToken)
    (h : lookupA cache key = some c) (hexp : ¬ now < c.expiresAt) :
    getE2AccessToken true env now key cache =
      runTokenAttempts env now key cache tokenAttempts none := by
  unfold getE2AccessToken
  rw [if_neg (by simp), h]
  simp only [if_neg hexp]

theorem getE2AccessToken_stale (env : List Char × List Char → TokenResponse) (now : Int)
    (key : List Char) (cache : TokenCache)
    (h : lookupA cache key = none ∨
      ∃ c, lookupA cache key = some c ∧ ¬ now < c.expiresAt) :
    getE2AccessToken true env now key cache =
      runTokenAttempts env now key cache tokenAttempts none := by
  rcases h with h | ⟨c, h, hexp⟩
  · exact getE2AccessToken_miss env now key cache h
  · exact getE2AccessToken_expired env now key cache c h hexp

/-- C8: a token request on a cache miss or an expired cache entry walks the
ordered attempt list: an unexpired cache hit short-circuits; a first success
is cached with the skewed expiry formula under the tenant key; a failed
attempt (in particular one whose body is HTML) caches nothing and the next
attempt is tried; when both attempts fail, the last error propagates and the
cache is untouched. -/
theorem c8_token_fallback :
    (∀ (env : List Char × List Char → TokenResponse) (now : Int) (key : List Char)
      (cache : TokenCache) (c : CachedToken), lookupA cache key = some c →
      now < c.expiresAt → getE2AccessToken true env now key cache = (.ok c.token, cache)) ∧
    (∀ (env : List Char × List Char → TokenResponse) (now : Int) (key : List Char)
      (cache : TokenCache) (d : TokenData),
      (lookupA cache key = none ∨
        ∃ c, lookupA cache key = some c ∧ ¬ now < c.expiresAt) →
      requestToken (jstr "/idp/oauth2/token") (jstr "body")
        (env (jstr "/idp/oauth2/token", jstr "body")) = .ok d →
      getE2AccessToken true env now key cache =
        (.ok d.access_token,
          setKey cache key ⟨d.access_token, now + d.expires_in * 1000 - skewMs⟩)) ∧
    (∀ (env : List Char × List Char → TokenResponse) (now : Int) (key : List Char)
      (cache : TokenCache) (e1 : List Char) (d : TokenData),
      (lookupA cache key = none ∨
        ∃ c, lookupA cache key = some c ∧ ¬ now < c.expiresAt) →
      requestToken (jstr "/idp/oauth2/token") (jstr "body")
        (env (jstr "/idp/oauth2/token", jstr "body")) = .error e1 →
      requestToken (jstr "/idp/oauth2/token") (jstr "basic")
        (env (jstr "/idp/oauth2/token", jstr "basic")) = .ok d →
      getE2AccessToken true env now key cache =
        (.ok d.access_token,
          setKey cache key ⟨d.access_token, now + d.expires_in * 1000 - skewMs⟩)) ∧
    (∀ (env : List Char × List Char → TokenResponse) (now : Int) (key : List Char)
      (cache : TokenCache) (e1 e2 : List Char),
      (lookupA cache key = none ∨
        ∃ c, lookupA cache key = some c ∧ ¬ now < c.expiresAt) →
      requestToken (jstr "/idp/oauth2/token") (jstr "body")
        (env (jstr "/idp/oauth2/token", jstr "body")) = .error e1 →
      requestToken (jstr "/idp/oauth2/token") (jstr "basic")
        (env (jstr "/idp/oauth2/token", jstr "basic")) = .error e2 →
      getE2AccessToken true env now key cache = (.error e2, cache)) ∧
    (∀ (path modeName : List Char) (r : TokenResponse), looksLikeHtml r.text = true →
      requestToken path modeName r =
        .error (jstr "Token endpoint " ++ path ++ jstr " returned HTML (status "
          ++ (toString r.status).data ++ jstr "). Check URL and IP whitelist.")) := by
  refine ⟨?_, ?_, ?_, ?_, ?_⟩
  · intro env now key cache c h hlt
    unfold getE2AccessToken
    rw [if_neg (by simp), h]
    simp only [if_pos hlt]
  · intro env now key cache d h hreq
    rw [getE2AccessToken_stale env now key cache h]
    exact runTokenAttempts_cons_ok env now key cache _ _ none d hreq
  · intro env now key cache e1 d h hreq1 hreq2
    rw [getE2AccessToken_stale env now key cache h]
    unfold tokenAttempts
    rw [runTokenAttempts_cons_err env now key cache _ _ none e1 hreq1]
    exact runTokenAttempts_cons_ok env now key cache _ _ (some e1) d hreq2
  · intro env now key cache e1 e2 h hreq1 hreq2
    rw [getE2AccessToken_stale env now key cache h]
    unfold tokenAttempts
    rw [runTokenAttempts_cons_err env now key cache _ _ none e1 hreq1,
      runTokenAttempts_cons_err env now key cache _ _ (some e1) e2 hreq2]
    rfl
  · intro path modeName r h
    unfold requestToken
    rw [if_pos h]

/-- C8 witness: the spec token-fallback scenario on a cache miss (the
body-mode attempt gets an HTML page and is skipped without caching; the
basic-mode attempt succeeds and its token is cached with the skewed expiry),
and the same fallback on an expired cached entry, which is overwritten by
the fresh token. -/
theorem c8_witness :
    getE2AccessToken true
      (fun a => if a.2 = jstr "body" then ⟨200, jstr "<html>maintenance</html>", none⟩
        else ⟨200, jstr "ok", some ⟨jstr "tok123", 3600⟩⟩)
      0 (jstr "global") []
      = (.ok (jstr "tok123"),
          [(jstr "global", ⟨jstr "tok123", 0 + 3600 * 1000 - skewMs⟩)]) ∧
    getE2AccessToken true
      (fun a => if a.2 = jstr "body" then ⟨200, jstr "<html>maintenance</html>", none⟩
        else ⟨200, jstr "ok", some ⟨jstr "tok123", 3600⟩⟩)
      10 (jstr "global") [(jstr "global", ⟨jstr "stale", 5⟩)]
      = (.ok (jstr "tok123"),
          setKey [(jstr "global", ⟨jstr "stale", 5⟩)] (jstr "global")
            ⟨jstr "tok123", 10 + 3600 * 1000 - skewMs⟩) := by
  constructor
  · exact c8_token_fallback.2.2.1
      (fun a => if a.2 = jstr "body" then ⟨200, jstr "<html>maintenance</html>", none⟩
        else ⟨200, jstr "ok", some ⟨jstr "tok123", 3600⟩⟩)
      0 (jstr "global") []
      (jstr "Token endpoint /idp/oauth2/token returned HTML (status 200). Check URL and IP whitelist.")
      ⟨jstr "tok123", 3600⟩ (Or.inl rfl) rfl rfl
  · exact c8_token_fallback.2.2.1
      (fun a => if a.2 = jstr "body" then ⟨200, jstr "<html>maintenance</html>", none⟩
        else ⟨200, jstr "ok", some ⟨jstr "tok123", 3600⟩⟩)
      10 (jstr "global") [(jstr "global", ⟨jstr "stale", 5⟩)]
      (jstr "Token endpoint /idp/oauth2/token returned HTML (status 200). Check URL and IP whitelist.")
      ⟨jstr "tok123", 3600⟩ (Or.inr ⟨⟨jstr "stale", 5⟩, rfl, by decide⟩) rfl rfl

/-- C9: a registry call whose response is 401 deletes the cached entry for the
tenant key, acquires a fresh token and retries exactly once, returning the
retried response whatever its status; a non-401 response is returned as is
with the cache as the first acquisition left it. -/
theorem c9_e2fetch_401_retry :
    (∀ (credsOk : Bool) (env1 env2 : List Char × List Char → TokenResponse)
      (fetch1 fetch2 : List Char → HttpResp) (now : Int) (key : List Char)
      (cache c1 : TokenCache) (tok : List Char),
      getE2AccessToken credsOk env1 now key cache = (.ok tok, c1) →
      (fetch1 tok).status ≠ 401 →
      e2Fetch credsOk env1 env2 fetch1 fetch2 now key cache = (.ok (fetch1 tok), c1)) ∧
    (∀ (credsOk : Bool) (env1 env2 : List Char × List Char → TokenResponse)
      (fetch1 fetch2 : List Char → HttpResp) (now : Int) (key : List Char)
      (cache c1 c3 : TokenCache) (tok tok2 : List Char),
      getE2AccessToken credsOk env1 now key cache = (.ok tok, c1) →
      (fetch1 tok).status = 401 →
      getE2AccessToken credsOk env2 now key (eraseKey c1 key) = (.ok tok2, c3) →
      e2Fetch credsOk env1 env2 fetch1 fetch2 now key cache = (.ok (fetch2 tok2), c3)) ∧
    (∀ (credsOk : Bool) (env1 env2 : List Char × List Char → TokenResponse)
      (fetch1 fetch2 : List Char → HttpResp) (now : Int) (key : List Char)
      (cache c1 c3 : TokenCache) (tok : List Char) (e : List Char),
      getE2AccessToken credsOk env1 now key cache = (.ok tok, c1) →
      (fetch1 tok).status = 401 →
      getE2AccessToken credsOk env2 now key (eraseKey c1 key) = (.error e, c3) →
      e2Fetch credsOk env1 env2 fetch1 fetch2 now key cache = (.error e, c3)) := by
  refine ⟨?_, ?_, ?_⟩
  · intro credsOk env1 env2 fetch1 fetch2 now key cache c1 tok h1 h2
    unfold e2Fetch
    rw [h1]
    simp only [if_neg h2]
  · intro credsOk env1 env2 fetch1 fetch2 now key cache c1 c3 tok tok2 h1 h2 h3
    unfold e2Fetch
    rw [h1]
    simp only [if_pos h2, h3]
  · intro credsOk env1 env2 fetch1 fetch2 now key cache c1 c3 tok e h1 h2 h3
    unfold e2Fetch
    rw [h1]
    simp only [if_pos h2, h3]

/-- C9 witness: a cached token gets 401 from the registry; the entry is
deleted, a fresh token is fetched and the call retried once, and the retried
response (itself a 401) is surfaced unchanged. -/
theorem c9_witness :
    e2Fetch true
      (fun _ => ⟨500, jstr "unused", none⟩)
      (fun _ => ⟨200, jstr "ok", some ⟨jstr "fresh", 3600⟩⟩)
      (fun _ => ⟨401, jstr "unauthorized"⟩)
      (fun _ => ⟨401, jstr "still unauthorized"⟩)
      0 (jstr "t1") [(jstr "t1", ⟨jstr "stale", 1000000⟩)]
      = (.ok ⟨401, jstr "still unauthorized"⟩,
          [(jstr "t1", ⟨jstr "fresh", 0 + 3600 * 1000 - skewMs⟩)]) := by
  refine c9_e2fetch_401_retry.2.1 true
    (fun _ => ⟨500, jstr "unused", none⟩)
    (fun _ => ⟨200, jstr "ok", some ⟨jstr "fresh", 3600⟩⟩)
    (fun _ => ⟨401, jstr "unauthorized"⟩)
    (fun _ => ⟨401, jstr "still unauthorized"⟩)
    0 (jstr "t1") [(jstr "t1", ⟨jstr "stale", 1000000⟩)]
    [(jstr "t1", ⟨jstr "stale", 1000000⟩)]
    [(jstr "t1", ⟨jstr "fresh", 0 + 3600 * 1000 - skewMs⟩)]
    (jstr "stale") (jstr "fresh") rfl rfl rfl

theorem runVlQueries_allFail
    (q : List Char → List (List Char) → Except (List Char) (List CatalogRow)) (e : List Char)
    (hq : ∀ k vals, q k vals = .error e) (groups : List (List Char × List (List Char)))
    (hne : groups ≠ []) (valid : List (List Char)) :
    runVlQueries q groups valid = .error e := by
  cases groups with
  | nil => exact absurd rfl hne
  | cons g rest =>
    obtain ⟨c, vs⟩ := g
    simp only [runVlQueries, hq]

/-- C2 counterexample input facts: dbBadCode holds one generic row whose
attribute code does not canonicalize, yet the compilation succeeds with an
empty rejection list — a bad-code defect produces no rejection record. -/
theorem c2_counterexample :
    dbBadCode.genericAttrs = .ok (some [simpleRow "x431" "300" none none]) ∧
    toAttributeCode (simpleRow "x431" "300" none none).attribute_code = none ∧
    (buildE2Payload dbBadCode none none none).map
      (fun r => (r.rejected, r.selectionsCount, r.usedCount)) = .ok ([], 0, 0) :=
  ⟨rfl, rfl, rfl⟩

/-- C2 amended: a catalog query failure during validation aborts the whole
compilation and propagates to the caller of buildE2Payload, with no document
of any kind; catalog misses and null conversions append one rejection record
and processing continues with the remaining selections; a value-list
selection without a truthy valueId and a generic row with a bad code are
silently dropped (no record) and processing continues; and once loading and
validation have succeeded, the only error the compilation can still raise is
the edit-mode e2_id precondition — no per-selection defect ever aborts it. -/
theorem c2_failure_semantics :
    (∀ (db : Db) (er : Option ExportRow) (mode vt : Option (List Char)) (src : List Char)
      (sels : List Selection) (e : List Char),
      buildSelections db = .ok (src, sels) →
      validateValueListSelections db.vlQuery (candidatesOf sels) = .error e →
      buildE2Payload db er mode vt = .error e) ∧
    (∀ (q : List Char → List (List Char) → Except (List Char) (List CatalogRow))
      (e : List Char) (pairs : List VPair),
      (∀ k vals, q k vals = .error e) → (∃ p, p ∈ pairs ∧ p.code ≠ []) →
      validateValueListSelections q pairs = .error e) ∧
    (∀ (vs : List (List Char)) (sel : Selection) (rest : List Selection) (st : PState),
      sel.format = jstr "value_list_int_array" → strTruthy sel.valueId = false →
      processSelections vs (sel :: rest) st = processSelections vs rest st) ∧
    (∀ (vs : List (List Char)) (sel : Selection) (rest : List Selection) (st : PState),
      sel.format = jstr "value_list_int_array" → strTruthy sel.valueId = true →
      taxKey (vlKeyOf sel.code) (sel.valueId.getD []) ∉ vs →
      processSelections vs (sel :: rest) st =
        processSelections vs rest
          ⟨st.top, st.ents, st.rejected ++ [⟨sel.code, sel.valueId, notFoundReason⟩]⟩) ∧
    (∀ (vs : List (List Char)) (sel : Selection) (rest : List Selection) (st : PState),
      vlGateOk vs sel = true → selectionToE2Value sel = none →
      processSelections vs (sel :: rest) st =
        processSelections vs rest
          ⟨st.top, st.ents, st.rejected ++ [⟨sel.code, none, noValueReason sel.format⟩]⟩) ∧
    (∀ r : GenericRow, toAttributeCode r.attribute_code = none → mkGenericSelection r = none) ∧
    (∀ (db : Db) (er : Option ExportRow) (mode vt : Option (List Char)) (src : List Char)
      (sels : List Selection) (vs : List (List Char)) (e : List Char),
      buildSelections db = .ok (src, sels) →
      validateValueListSelections db.vlQuery (candidatesOf sels) = .ok vs →
      buildE2Payload db er mode vt = .error e → e = e2IdRequiredMsg) := by
  refine ⟨?_, ?_, ?_, ?_, ?_, ?_, ?_⟩
  · intro db er mode vt src sels e hbs hv
    unfold buildE2Payload
    rw [hbs]
    simp only [hv]
  · intro q e pairs hq ⟨p, hp, hpc⟩
    unfold validateValueListSelections
    refine runVlQueries_allFail q e hq (groupPairs pairs) ?_ []
    obtain ⟨vs, hmem, _⟩ := groupPairs_presence pairs [] p hp hpc
    intro hnil
    rw [show pairs.foldl
      (fun acc2 p => if p.code = [] then acc2 else addPair acc2 p.code p.valueId) [] =
      groupPairs pairs from rfl, hnil] at hmem
    cases hmem
  · intro vs sel rest st hf hv
    rw [processSelections_cons, processSel_vl_skip vs st sel hf hv]
  · intro vs sel rest st hf hv hk
    rw [processSelections_cons, processSel_vl_reject vs st sel hf hv hk]
  · intro vs sel rest st hg hc
    rw [processSelections_cons, processSel_pass vs st sel hg, convertAndPlace_none sel st hc]
  · intro r h
    unfold mkGenericSelection
    rw [h]
  · intro db er mode vt src sels vs e hbs hv herr
    unfold buildE2Payload at herr
    rw [hbs] at herr
    simp only [hv] at herr
    by_cases hm : effectiveModeOf mode = jstr "edit" ∨ effectiveModeOf mode = jstr "update"
    · rw [if_pos hm] at herr
      cases he2 : jsOrNullStr (er.bind (fun r => r.e2_id)) with
      | none =>
        simp only [he2] at herr
        cases herr
        rfl
      | some e2id =>
        simp only [he2] at herr
        exact Except.noConfusion herr
    · rw [if_neg hm] at herr
      exact Except.noConfusion herr

/-- C2 witness: a concrete catalog outage aborts the compilation with the
query error, and after a concrete successful load and validation the only
remaining error is the edit-mode e2_id precondition. -/
theorem c2_witness :
    buildE2Payload dbCatalogDown none none none = .error (jstr "boom") ∧
    e2IdRequiredMsg = e2IdRequiredMsg := by
  constructor
  · exact c2_failure_semantics.1 dbCatalogDown none none none
      (jstr "incident_eccairs_attributes")
      [{ code := jstr "431", taxonomy_code := jstr "24",
         format := jstr "value_list_int_array", valueId := some (jstr "300"),
         text := none, raw := none, entity_path := none }]
      (jstr "boom") rfl rfl
  · exact c2_failure_semantics.2.2.2.2.2.2 dbEmpty none (some (jstr "edit")) none
      (jstr "none") [] [] e2IdRequiredMsg rfl rfl rfl

theorem catalogMiss_rejected (vs : List (List Char)) (sel : Selection) (v : List Char)
    (hf : sel.format = jstr "value_list_int_array") (hval : sel.valueId = some v)
    (hne : v ≠ []) (hnot : taxKey (vlKeyOf sel.code) v ∉ vs) :
    ∀ (l : List Selection), sel ∈ l → ∀ (st : PState),
      (⟨sel.code, some v, notFoundReason⟩ : RejectedAttr) ∈
        (processSelections vs l st).rejected := by
  intro l
  induction l with
  | nil => intro h; cases h
  | cons hd rest ih =>
    intro hmem st
    rw [processSelections_cons]
    rcases List.mem_cons.1 hmem with rfl | hmem2
    · have htr : strTruthy sel.valueId = true := by
        rw [hval]
        cases v with
        | nil => exact absurd rfl hne
        | cons a b => rfl
      have hget : sel.valueId.getD [] = v := by rw [hval]; rfl
      rw [processSel_vl_reject vs st sel hf htr (by rw [hget]; exact hnot)]
      refine mem_rejected_processSelections vs rest _ _ ?_
      rw [hval]
      exact List.mem_append_right _ (List.mem_singleton.2 rfl)
    · exact ih hmem2 _

/-- C1 counterexample: with two selections for code 431 (an invalid value 999
and a valid value 300), the invalid pair is rejected with the catalog-absence
reason, yet the code 431 is present in the top-level ATTRIBUTES map — the
claim that the code is absent fails. -/
theorem c1_counterexample :
    (buildE2Payload dbDup431 none none none).map
      (fun r => (lookupA r.topLevelAttributes (jstr "431"), r.rejected))
      = .ok (some (.jarr [.jnum 300]),
          [⟨jstr "431", some (jstr "999"), notFoundReason⟩]) := rfl

/-- C1 amended: a taxonomy-24 value-list selection whose (code, valueId) pair
is not in the catalog always yields a rejection record with reason citing
catalog absence, and a code appears in the top-level ATTRIBUTES map only
when some taxonomy-24 selection with that code passes the gate, converts and
has no entity path (so the invalid pair itself contributes nothing, and the
code is absent unless another selection with the same code succeeds);
validity of a pair is exactly membership of a catalog row whose
value_list_key is VL ++ code and whose value_id is string-equal. -/
theorem c1_catalog_miss :
    ∀ (db : Db) (er : Option ExportRow) (mode vt : Option (List Char)) (src : List Char)
      (sels : List Selection) (vs : List (List Char)) (res : BuildResult),
      buildSelections db = .ok (src, sels) →
      validateValueListSelections db.vlQuery (candidatesOf sels) = .ok vs →
      buildE2Payload db er mode vt = .ok res →
      (∀ (sel : Selection) (v : List Char), sel ∈ filteredOf sels →
        sel.format = jstr "value_list_int_array" → sel.valueId = some v → v ≠ [] →
        taxKey (vlKeyOf sel.code) v ∉ vs →
        (⟨sel.code, some v, notFoundReason⟩ : RejectedAttr) ∈ res.rejected) ∧
      (∀ c : List Char, c ∈ keysA res.topLevelAttributes →
        ∃ sel, sel ∈ filteredOf sels ∧ sel.code = c ∧ placesTop vs sel) ∧
      (∀ table : List CatalogRow, db.vlQuery = tableVlQuery table →
        ∀ (sel : Selection) (v : List Char), sel ∈ filteredOf sels →
          sel.format = jstr "value_list_int_array" → sel.valueId = some v → v ≠ [] →
          (taxKey (vlKeyOf sel.code) v ∈ vs ↔
            ∃ row, row ∈ table ∧ row.value_list_key = vlKeyOf sel.code ∧
              row.value_id = v)) := by
  intro db er mode vt src sels vs res hbs hv hok
  obtain ⟨hrej, htop, _, _, _⟩ := buildE2Payload_ok_inv db er mode vt src sels vs res hbs hv hok
  refine ⟨?_, ?_, ?_⟩
  · intro sel v hmem hf hval hne hnot
    rw [hrej]
    exact catalogMiss_rejected vs sel v hf hval hne hnot (filteredOf sels) hmem _
  · intro c hc
    rw [htop] at hc
    rcases (top_keys_processSelections vs (filteredOf sels) ⟨[], [], []⟩ c).1 hc with h2 | h2
    · cases h2
    · exact h2
  · intro table hq sel v hmem hf hval hne
    rw [hq] at hv
    refine validate_mem_iff table (candidatesOf sels) ?_ sel.code v ?_ vs hv
    · intro q hqmem
      obtain ⟨sel2, hmem2, hcode, _, _⟩ := mem_candidatesOf sels q hqmem
      rw [← hcode]
      exact buildSelections_codes db src sels hbs sel2 (mem_filteredOf sels sel2 hmem2)
    · exact candidatesOf_complete sels sel v hmem hf hval hne

/-- C1 witness: in the dbDup431 compilation the invalid pair (431, 999) is
rejected, the key 431 in ATTRIBUTES is explained by the valid selection, and
validity of the pairs matches catalog membership. -/
theorem c1_witness :
    ((⟨jstr "431", some (jstr "999"), notFoundReason⟩ : RejectedAttr) ∈
      ([⟨jstr "431", some (jstr "999"), notFoundReason⟩] : List RejectedAttr)) ∧
    (∃ sel, sel ∈ filteredOf
        [{ code := jstr "431", taxonomy_code := jstr "24",
           format := jstr "value_list_int_array", valueId := some (jstr "999"),
           text := none, raw := none, entity_path := none },
         { code := jstr "431", taxonomy_code := jstr "24",
           format := jstr "value_list_int_array", valueId := some (jstr "300"),
           text := none, raw := none, entity_path := none }] ∧
      sel.code = jstr "431" ∧ placesTop [jstr "VL431:300"] sel) := by
  have h := c1_catalog_miss dbDup431 none none none (jstr "incident_eccairs_attributes")
    [{ code := jstr "431", taxonomy_code := jstr "24",
       format := jstr "value_list_int_array", valueId := some (jstr "999"),
       text := none, raw := none, entity_path := none },
     { code := jstr "431", taxonomy_code := jstr "24",
       format := jstr "value_list_int_array", valueId := some (jstr "300"),
       text := none, raw := none, entity_path := none }]
    [jstr "VL431:300"]
    { payload := .create ⟨some fixedDocId, [(jstr "431", .jarr [.jnum 300])], none⟩,
      mode := jstr "create", source := jstr "incident_eccairs_attributes",
      rejected := [⟨jstr "431", some (jstr "999"), notFoundReason⟩],
      topLevelAttributes := [(jstr "431", .jarr [.jnum 300])],
      entityAttributes := [], usedCount := 1, selectionsCount := 2 }
    rfl rfl rfl
  constructor
  · exact h.1
      { code := jstr "431", taxonomy_code := jstr "24",
        format := jstr "value_list_int_array", valueId := some (jstr "999"),
        text := none, raw := none, entity_path := none }
      (jstr "999") (List.mem_cons_self _ _) rfl rfl (by decide) (by decide)
  · exact h.2.1 (jstr "431") (by decide)

theorem buildEntities_of_ne_nil (ents : List (List Char × List (List Char × JsonVal)))
    (h : ents ≠ []) :
    buildEntities ents = some (ents.foldl
      (fun acc2 pr =>
        if 0 < pr.2.length then acc2 ++ [(pr.1, [⟨generateEntityId pr.1, pr.2⟩])] else acc2)
      []) := by
  unfold buildEntities
  rw [if_pos (List.length_pos.2 h)]

/-- C3: every successful compilation groups all surviving selections of one
entity path into exactly one synthesized entity: each binding in ENTITIES is
a one-element list holding the deterministic entity identifier and the
accumulated attribute map of that path, a path is never bound to two
different entities, a surviving entity-path selection lands in the single
entity of its path, and every top-level attribute key comes from a selection
without a truthy entity path; the aircraft-category scenario compiles as the
spec states. -/
theorem c3_entity_grouping :
    (∀ (db : Db) (er : Option ExportRow) (mode vt : Option (List Char)) (src : List Char)
      (sels : List Selection) (vs : List (List Char)) (res : BuildResult),
      buildSelections db = .ok (src, sels) →
      validateValueListSelections db.vlQuery (candidatesOf sels) = .ok vs →
      buildE2Payload db er mode vt = .ok res →
      (∀ (es : List (List Char × List EntityObj)) (p : List Char) (l : List EntityObj),
        res.payload.tax.ENTITIES = some es → (p, l) ∈ es →
        ∃ attrs, l = [⟨generateEntityId p, attrs⟩] ∧
          lookupA res.entityAttributes p = some attrs) ∧
      (∀ (es : List (List Char × List EntityObj)) (p : List Char) (l1 l2 : List EntityObj),
        res.payload.tax.ENTITIES = some es → (p, l1) ∈ es → (p, l2) ∈ es → l1 = l2) ∧
      (∀ (sel : Selection) (p : List Char) (v : JsonVal), sel ∈ filteredOf sels →
        sel.entity_path = some p → strTruthy sel.entity_path = true →
        vlGateOk vs sel = true → selectionToE2Value sel = some v →
        ∃ attrs es, lookupA res.entityAttributes p = some attrs ∧
          sel.code ∈ keysA attrs ∧ res.payload.tax.ENTITIES = some es ∧
          (p, [⟨generateEntityId p, attrs⟩]) ∈ es) ∧
      (∀ c : List Char, c ∈ keysA res.topLevelAttributes →
        ∃ sel, sel ∈ filteredOf sels ∧ sel.code = c ∧
          strTruthy sel.entity_path = false)) ∧
    (buildE2Payload db32 none none none).map
      (fun r => (r.payload.tax.ENTITIES, lookupA r.topLevelAttributes (jstr "32")))
      = .ok (some [(jstr "4",
          [⟨generateEntityId (jstr "4"), [(jstr "32", .jarr [.jnum 5])]⟩])], none) := by
  constructor
  · intro db er mode vt src sels vs res hbs hv hok
    obtain ⟨_, htop, hea, _, hent⟩ :=
      buildE2Payload_ok_inv db er mode vt src sels vs res hbs hv hok
    have hnodup : (keysA (processSelections vs (filteredOf sels) ⟨[], [], []⟩).ents).Nodup :=
      nodup_ents_processSelections vs (filteredOf sels) ⟨[], [], []⟩ List.nodup_nil
    refine ⟨?_, ?_, ?_, ?_⟩
    · intro es p l hes hmem
      rw [hent] at hes
      obtain ⟨attrs, hmem2, hl, _⟩ :=
        buildEntities_mem (processSelections vs (filteredOf sels) ⟨[], [], []⟩).ents
          es p l hes hmem
      refine ⟨attrs, hl, ?_⟩
      rw [hea]
      exact lookupA_of_mem_nodup _ p attrs hmem2 hnodup
    · intro es p l1 l2 hes hm1 hm2
      rw [hent] at hes
      obtain ⟨attrs1, hmem1, hl1, _⟩ :=
        buildEntities_mem (processSelections vs (filteredOf sels) ⟨[], [], []⟩).ents
          es p l1 hes hm1
      obtain ⟨attrs2, hmem2, hl2, _⟩ :=
        buildEntities_mem (processSelections vs (filteredOf sels) ⟨[], [], []⟩).ents
          es p l2 hes hm2
      rw [hl1, hl2, mem_unique_of_nodup_keys _ p attrs1 attrs2 hmem1 hmem2 hnodup]
    · intro sel p v hmem hep htr hg hconv
      obtain ⟨attrs, hla, hcode⟩ :=
        ent_placed vs sel p ⟨hg, ⟨v, hconv⟩, hep, htr⟩ (filteredOf sels) hmem ⟨[], [], []⟩
      have hmem2 := mem_of_lookupA _ p attrs hla
      have hattrs_ne : attrs ≠ [] := by
        intro hnil
        rw [hnil] at hcode
        cases hcode
      refine ⟨attrs,
        (processSelections vs (filteredOf sels) ⟨[], [], []⟩).ents.foldl
          (fun acc2 pr =>
            if 0 < pr.2.length then acc2 ++ [(pr.1, [⟨generateEntityId pr.1, pr.2⟩])]
            else acc2) [],
        by rw [hea]; exact hla, hcode, ?_, ?_⟩
      · rw [hent]
        exact buildEntities_of_ne_nil _ (List.ne_nil_of_mem hmem2)
      · exact buildEntities_foldl_complete _ [] p attrs hmem2
          (List.length_pos.2 hattrs_ne)
    · intro c hc
      rw [htop] at hc
      rcases (top_keys_processSelections vs (filteredOf sels) ⟨[], [], []⟩ c).1 hc with h2 | h2
      · cases h2
      · obtain ⟨sel, hs1, hs2, hs3⟩ := h2
        exact ⟨sel, hs1, hs2, hs3.2.2⟩
  · rfl

/-- C3 witness: the grouping facts instantiated on the db32 scenario
compilation. -/
theorem c3_witness :
    (∃ attrs, ([⟨generateEntityId (jstr "4"), [(jstr "32", .jarr [.jnum 5])]⟩] : List EntityObj)
        = [⟨generateEntityId (jstr "4"), attrs⟩] ∧
      lookupA [(jstr "4", [(jstr "32", .jarr [.jnum 5])])] (jstr "4") = some attrs) := by
  have h := (c3_entity_grouping.1 db32 none none none
    (jstr "incident_eccairs_attributes")
    [{ code := jstr "32", taxonomy_code := jstr "24",
       format := jstr "value_list_int_array", valueId := some (jstr "5"),
       text := none, raw := none, entity_path := some (jstr "4") }]
    [jstr "VL32:5"]
    { payload := .create ⟨some fixedDocId, [], some [(jstr "4",
        [⟨generateEntityId (jstr "4"), [(jstr "32", .jarr [.jnum 5])]⟩])]⟩,
      mode := jstr "create", source := jstr "incident_eccairs_attributes",
      rejected := [], topLevelAttributes := [],
      entityAttributes := [(jstr "4", [(jstr "32", .jarr [.jnum 5])])],
      usedCount := 1, selectionsCount := 1 }
    rfl rfl rfl)
  exact h.1 [(jstr "4", [⟨generateEntityId (jstr "4"), [(jstr "32", .jarr [.jnum 5])]⟩])]
    (jstr "4") [⟨generateEntityId (jstr "4"), [(jstr "32", .jarr [.jnum 5])]⟩]
    rfl (List.mem_singleton.2 rfl)

end Eccairs
